import Mathlib

/-!
# dagger-gcp: credential resolution, token exposure and registry-auth rendering

A shallow embedding of the three Go source files

* `gcp.go`                  (`New`, `Gcp.Mount`, `Gcp.RegistryAuth`, `Gcp.GetAccessToken`)
* `gcp_registry_config.go`  (`RegistryConfig.Mount`, `Config`, `Config.toSecret`)
* `internal/auth/auth.go`   (`ExternalAccountCredentialsJson`, `NewTokenSource`, ...)

Conventions of the embedding.

* A Go `string` is a finite sequence of bytes, not necessarily valid UTF-8: `GoString`.
* A nillable `*dagger.Secret` is an `Option Secret`; a nil or empty `[]string` is `[]`
  (the code only takes `len` of it and ranges over it, which cannot tell the two apart).
* A Go result pair `(value, error)` in which exactly one side is set is an `Except GoError _`.
* The collaborators that live outside the repository and perform I/O or cryptography
  (the dagger engine, the `golang.org/x/oauth2` libraries, `crypto/sha1`, the
  serialisation of `*oauth2.Token`) are the fields of a `World` that every operation
  takes as an argument: the theorems hold for every `World`.
* The pure library functions the properties depend on (`encoding/json` for strings, maps and
  the `Config` struct, `encoding/base64`, `unicode/utf8`, `fmt` with `%x`) are modelled
  concretely and executably from their documented behaviour.
* The `context.Context` argument is dropped: cancellation is not modelled.
* `dagger.Container` is an immutable handle; a container is represented by the list of
  builder calls that were applied to it.
-/

namespace DaggerGcp

set_option maxRecDepth 100000

/-! ## Strings and errors -/

/-- One byte of a Go string. -/
abbrev Byte := Fin 256

/-- A Go `string`: an immutable byte sequence. -/
abbrev GoString := List Byte

/-- The byte with the given numeric value (reduced modulo 256). -/
def byte (n : Nat) : Byte := ⟨n % 256, Nat.mod_lt n (by decide)⟩

/-- A Go string literal whose characters are all ASCII. -/
def lit (s : String) : GoString := s.toList.map (fun c => byte c.toNat)

/-- An error value produced by a collaborator outside the repository. -/
structure ExtError where
  msg : GoString
  deriving DecidableEq

/-- The `error` values the repository can return, by origin. -/
inductive GoError where
  /-- From `errors.New("no credentials or workload identity token specified")`, gcp.go:24. -/
  | noCredentials
  /-- From `errors.New("workload identity provider must be specified")`, gcp.go:28. -/
  | providerRequired
  /-- From `fmt.Errorf("unsupported format: %s", format)`, gcp.go:110. -/
  | unsupportedFormat (format : GoString)
  /-- From `errors.New("no valid credentials found")`, auth.go:54. -/
  | noValidCredentials
  /-- An error of a collaborator, returned unchanged. -/
  | external (e : ExtError)
  deriving DecidableEq

deriving instance DecidableEq for Except

/-- The text of `err.Error()`. -/
def GoError.Error : GoError → GoString
  | .noCredentials => lit "no credentials or workload identity token specified"
  | .providerRequired => lit "workload identity provider must be specified"
  | .unsupportedFormat format => lit "unsupported format: " ++ format
  | .noValidCredentials => lit "no valid credentials found"
  | .external e => e.msg

/-! ## Collaborator data: secrets, tokens, containers -/

/-- A `dagger.Secret` handle. -/
inductive Secret where
  /-- A secret supplied by the caller; its content is only known to the engine. -/
  | handle (id : Nat)
  /-- The result of `dag.SetSecret(name, plaintext)`. -/
  | set (name plaintext : GoString)
  deriving DecidableEq

namespace dag

/-- The call `dag.SetSecret(name, plaintext)`. -/
def SetSecret (name plaintext : GoString) : Secret := .set name plaintext

end dag

namespace oauth2

/-- The exported fields of `oauth2.Token`; the `Expiry` time is given in seconds since
the Unix epoch. -/
structure Token where
  AccessToken : GoString
  TokenType : GoString
  RefreshToken : GoString
  Expiry : Int
  deriving DecidableEq

/-- An `oauth2.TokenSource`, given by what its `Token()` method returns. -/
structure TokenSource where
  Token : Except ExtError Token

end oauth2

namespace externalaccount

/-- The fields of `externalaccount.Config` that the repository sets; the supplier
`&secretTokenSupplier{s}` is given by the secret `s` it reads. -/
structure Config where
  Audience : GoString
  SubjectTokenType : GoString
  SubjectTokenSupplier : Secret
  Scopes : List GoString
  deriving DecidableEq

end externalaccount

/-- The collaborators outside the repository. -/
structure World where
  /-- The method `(*dagger.Secret).Plaintext(ctx)`. -/
  Plaintext : Secret → Except ExtError GoString
  /-- The call `google.CredentialsFromJSON(ctx, json, scope)` followed by `.TokenSource`. -/
  CredentialsFromJSON : GoString → GoString → Except ExtError oauth2.TokenSource
  /-- The call `externalaccount.NewTokenSource(ctx, config)`. -/
  NewTokenSource : externalaccount.Config → Except ExtError oauth2.TokenSource
  /-- The call `json.Marshal(token)` for a `*oauth2.Token`; unlike for strings and maps of
  strings, the encoder can fail here (the encoding of the `Expiry` time rejects a year
  outside 0..9999), which is why `GetAccessToken` checks its error. -/
  MarshalToken : oauth2.Token → Except ExtError GoString
  /-- The SHA-1 digest of a byte sequence (`crypto/sha1`). -/
  sha1Sum : GoString → GoString

/-- The options struct `dagger.ContainerWithMountedSecretOpts`. -/
structure ContainerWithMountedSecretOpts where
  Owner : GoString
  Mode : Int
  deriving DecidableEq

/-- One builder call on a `dagger.Container`. -/
inductive ContainerOp where
  | WithEnvVariable (name value : GoString)
  | WithMountedSecret (path : GoString) (source : Secret)
      (opts : List ContainerWithMountedSecretOpts)
  | WithNewFile (path contents : GoString)
  | WithRegistryAuth (address username : GoString) (secret : Secret)
  deriving DecidableEq

/-- A `dagger.Container`: a base container and the builder calls applied to it, oldest
first. -/
structure Container where
  base : Nat
  ops : List ContainerOp
  deriving DecidableEq

namespace Container

/-- The call `ctr.WithEnvVariable(name, value)`. -/
def WithEnvVariable (ctr : Container) (name value : GoString) : Container :=
  { ctr with ops := ctr.ops ++ [.WithEnvVariable name value] }

/-- The call `ctr.WithMountedSecret(path, source, opts...)`. -/
def WithMountedSecret (ctr : Container) (path : GoString) (source : Secret)
    (opts : List ContainerWithMountedSecretOpts) : Container :=
  { ctr with ops := ctr.ops ++ [.WithMountedSecret path source opts] }

/-- The call `ctr.WithNewFile(path, contents)`. -/
def WithNewFile (ctr : Container) (path contents : GoString) : Container :=
  { ctr with ops := ctr.ops ++ [.WithNewFile path contents] }

/-- The call `ctr.WithRegistryAuth(address, username, secret)`. -/
def WithRegistryAuth (ctr : Container) (address username : GoString) (secret : Secret) :
    Container :=
  { ctr with ops := ctr.ops ++ [.WithRegistryAuth address username secret] }

end Container

/-! ## Library models: `unicode/utf8` -/

namespace utf8

/-- The constant `utf8.RuneError`, U+FFFD. -/
def RuneError : Nat := 0xFFFD

/-- The function `utf8.DecodeRuneInString`: the first rune of `s` and its width in bytes;
`(RuneError, 0)` for the empty string and `(RuneError, 1)` where the encoding is invalid
(a stray continuation byte, an overlong form, a surrogate, a value above U+10FFFF, or a
truncated sequence). -/
def DecodeRuneInString (s : GoString) : Nat × Nat :=
  match s with
  | [] => (RuneError, 0)
  | s0 :: t =>
    if s0.val < 0x80 then (s0.val, 1)
    else if s0.val < 0xC2 then (RuneError, 1)
    else if s0.val < 0xE0 then
      match t with
      | s1 :: _ =>
        if s1.val < 0x80 ∨ 0xBF < s1.val then (RuneError, 1)
        else ((s0.val % 32) * 64 + s1.val % 64, 2)
      | _ => (RuneError, 1)
    else if s0.val < 0xF0 then
      match t with
      | s1 :: s2 :: _ =>
        if s1.val < (if s0.val = 0xE0 then 0xA0 else 0x80) ∨
            (if s0.val = 0xED then 0x9F else 0xBF) < s1.val then (RuneError, 1)
        else if s2.val < 0x80 ∨ 0xBF < s2.val then (RuneError, 1)
        else ((s0.val % 16) * 4096 + (s1.val % 64) * 64 + s2.val % 64, 3)
      | _ => (RuneError, 1)
    else if s0.val < 0xF5 then
      match t with
      | s1 :: s2 :: s3 :: _ =>
        if s1.val < (if s0.val = 0xF0 then 0x90 else 0x80) ∨
            (if s0.val = 0xF4 then 0x8F else 0xBF) < s1.val then (RuneError, 1)
        else if s2.val < 0x80 ∨ 0xBF < s2.val then (RuneError, 1)
        else if s3.val < 0x80 ∨ 0xBF < s3.val then (RuneError, 1)
        else ((s0.val % 8) * 262144 + (s1.val % 64) * 4096 + (s2.val % 64) * 64
                + s3.val % 64, 4)
      | _ => (RuneError, 1)
    else (RuneError, 1)

/-- The loop of `utf8.ValidString`, with the remaining length as fuel. -/
def ValidString.loop : Nat → GoString → Bool
  | _, [] => true
  | 0, _ :: _ => false
  | fuel + 1, s0 :: t =>
    let d := DecodeRuneInString (s0 :: t)
    if d.1 = RuneError ∧ d.2 = 1 then false
    else ValidString.loop fuel ((s0 :: t).drop d.2)

/-- The function `utf8.ValidString`: whether `s` consists entirely of valid UTF-8
encoded runes. -/
def ValidString (s : GoString) : Bool := ValidString.loop s.length s

/-- The function `utf8.AppendRune` on an empty buffer: the UTF-8 encoding of a rune
(surrogates and values above U+10FFFF encode as U+FFFD). -/
def EncodeRune (r : Nat) : GoString :=
  if r < 0x80 then [byte r]
  else if r < 0x800 then [byte (0xC0 + r / 64), byte (0x80 + r % 64)]
  else if (0xD800 ≤ r ∧ r < 0xE000) ∨ 0x10FFFF < r then [0xEF, 0xBF, 0xBD]
  else if r < 0x10000 then
    [byte (0xE0 + r / 4096), byte (0x80 + (r / 64) % 64), byte (0x80 + r % 64)]
  else
    [byte (0xF0 + r / 262144), byte (0x80 + (r / 4096) % 64), byte (0x80 + (r / 64) % 64),
      byte (0x80 + r % 64)]

end utf8

/-! ## Library models: `strings`, `fmt` -/

namespace strings

/-- Whether `strings.Compare(a, b) <= 0`: byte-wise lexicographic order. -/
def le : GoString → GoString → Bool
  | [], _ => true
  | _ :: _, [] => false
  | a :: s, b :: t => if a < b then true else if b < a then false else le s t

end strings

/-- The digit table `"0123456789abcdef"` of `encoding/json` and of the `%x` verb. -/
def hexDigit (n : Nat) : Byte :=
  if n % 16 < 10 then byte (0x30 + n % 16) else byte (0x61 + (n % 16 - 10))

/-- The verb `%x` of `fmt` applied to a byte slice: two lower-case hexadecimal digits per
byte. -/
def fmtHex : GoString → GoString
  | [] => []
  | b :: t => hexDigit (b.val / 16) :: hexDigit (b.val % 16) :: fmtHex t

/-! ## Library models: `encoding/json` -/

namespace json

/-- The table `htmlSafeSet`: the ASCII bytes that `json.Marshal` copies unescaped, which
are the printable ones and DEL, without the double quote, the backslash and the three
HTML characters `<`, `>`, `&`. -/
def htmlSafeSet (b : Byte) : Bool :=
  0x20 ≤ b.val && b.val < 0x80 && b.val != 0x22 && b.val != 0x5C && b.val != 0x3C
    && b.val != 0x3E && b.val != 0x26

/-- The escape sequence `appendString` writes for an ASCII byte outside `htmlSafeSet`
(as of Go 1.22; earlier releases write `\u0008` and `\u000c` for backspace and form feed,
which denote the same bytes). -/
def escapeByte (b : Byte) : GoString :=
  if b.val = 0x5C ∨ b.val = 0x22 then [0x5C, b]
  else if b.val = 0x08 then [0x5C, 0x62]
  else if b.val = 0x0C then [0x5C, 0x66]
  else if b.val = 0x0A then [0x5C, 0x6E]
  else if b.val = 0x0D then [0x5C, 0x72]
  else if b.val = 0x09 then [0x5C, 0x74]
  else [0x5C, 0x75, 0x30, 0x30, hexDigit (b.val / 16), hexDigit (b.val % 16)]

/-- The loop of `appendString` with `escapeHTML` set, as `json.Marshal` runs it: the
text written between the two quotes for the source bytes from the current index on. The
first argument is fuel, the number of source bytes left. -/
def appendString.loop : Nat → GoString → GoString
  | _, [] => []
  | 0, _ :: _ => []
  | fuel + 1, b :: t =>
    if b.val < 0x80 then
      (if htmlSafeSet b then [b] else escapeByte b) ++ appendString.loop fuel t
    else
      let d := utf8.DecodeRuneInString (b :: t)
      if d.1 = utf8.RuneError ∧ d.2 = 1 then
        [0x5C, 0x75, 0x66, 0x66, 0x66, 0x64] ++ appendString.loop fuel t
      else if d.1 = 0x2028 ∨ d.1 = 0x2029 then
        [0x5C, 0x75, 0x32, 0x30, 0x32, hexDigit (d.1 % 16)]
          ++ appendString.loop fuel ((b :: t).drop d.2)
      else
        (b :: t).take d.2 ++ appendString.loop fuel ((b :: t).drop d.2)

/-- The function `appendString` of `encoding/json` on an empty buffer: the JSON string
literal for a Go string, coerced to valid UTF-8. -/
def appendString (src : GoString) : GoString :=
  [0x22] ++ appendString.loop src.length src ++ [0x22]

/-- Joins encoded members with commas. -/
def joinComma : List GoString → GoString
  | [] => []
  | [x] => x
  | x :: y :: t => x ++ [0x2C] ++ joinComma (y :: t)

/-- The map encoder of `encoding/json`, given the encoded values: the entries are sorted
by key (`strings.Compare`) and written as `"key":value` members between braces. -/
def encodeMap (entries : List (GoString × GoString)) : GoString :=
  [0x7B] ++
    joinComma ((entries.insertionSort (fun x y => strings.le x.1 y.1 = true)).map
      (fun kv => appendString kv.1 ++ [0x3A] ++ kv.2))
    ++ [0x7D]

end json

/-- A Go value of type `any` as it occurs in `ExternalAccountCredentialsJson`: a string
or a `map[string]any`, the latter given by its entries (with distinct keys). -/
inductive GoAny where
  | string (s : GoString)
  | map (entries : List (GoString × GoAny))

namespace json

/-- The encoding `json.Marshal` writes for a value of type `any` holding strings and
string-keyed maps. -/
def encodeAny : GoAny → GoString
  | .string s => appendString s
  | .map entries => encodeMap (encodeEntries entries)
where
  /-- The entries of a map with their values encoded. -/
  encodeEntries : List (GoString × GoAny) → List (GoString × GoString)
    | [] => []
    | (k, v) :: t => (k, encodeAny v) :: encodeEntries t

/-- The call `json.Marshal(values)` for a `map[string]any` of strings and nested maps;
it has no failing case for such values. -/
def MarshalAny (values : GoAny) : Except ExtError GoString := .ok (encodeAny values)

end json

/-! ### Reading JSON back

The repository only writes JSON. To state what a written document "decodes to", the
following reader for compact JSON texts made of strings and objects (RFC 8259 without
insignificant white space, numbers, arrays and literals) is used. Escapes `\uXXXX` are
read as one UTF-16 code unit in the basic plane; surrogate code units are rejected. -/

namespace json

/-- The value of a hexadecimal digit. -/
def hexValue (c : Byte) : Option Nat :=
  if 0x30 ≤ c.val ∧ c.val ≤ 0x39 then some (c.val - 0x30)
  else if 0x61 ≤ c.val ∧ c.val ≤ 0x66 then some (c.val - 0x61 + 10)
  else if 0x41 ≤ c.val ∧ c.val ≤ 0x46 then some (c.val - 0x41 + 10)
  else none

/-- The byte denoted by a one-letter escape. -/
def unescapeLetter (c : Byte) : Option Byte :=
  if c.val = 0x22 then some 0x22
  else if c.val = 0x5C then some 0x5C
  else if c.val = 0x2F then some 0x2F
  else if c.val = 0x62 then some 0x08
  else if c.val = 0x66 then some 0x0C
  else if c.val = 0x6E then some 0x0A
  else if c.val = 0x72 then some 0x0D
  else if c.val = 0x74 then some 0x09
  else none

/-- Reads a JSON string after its opening quote: the denoted Go string and the input
left after the closing quote. -/
def readString : GoString → Option (GoString × GoString)
  | [] => none
  | c :: t =>
    if c.val = 0x22 then some ([], t)
    else if c.val = 0x5C then
      match t with
      | [] => none
      | e :: u =>
        if e.val = 0x75 then
          match u with
          | h1 :: h2 :: h3 :: h4 :: v =>
            match hexValue h1, hexValue h2, hexValue h3, hexValue h4 with
            | some a, some b, some c, some d =>
              let r := a * 4096 + b * 256 + c * 16 + d
              if 0xD800 ≤ r ∧ r < 0xE000 then none
              else (readString v).map (fun x => (utf8.EncodeRune r ++ x.1, x.2))
            | _, _, _, _ => none
          | _ => none
        else
          match unescapeLetter e with
          | some b => (readString u).map (fun x => (b :: x.1, x.2))
          | none => none
    else if c.val < 0x20 then none
    else (readString t).map (fun x => (c :: x.1, x.2))

mutual

/-- Reads one JSON value (a string or an object) with the given fuel: the value and the
input left after it. -/
def readValue : Nat → GoString → Option (GoAny × GoString)
  | 0, _ => none
  | _ + 1, [] => none
  | fuel + 1, c :: t =>
    if c.val = 0x22 then (readString t).map (fun x => (GoAny.string x.1, x.2))
    else if c.val = 0x7B then
      match t with
      | [] => none
      | c1 :: u =>
        if c1.val = 0x7D then some (GoAny.map [], u)
        else (readMembers fuel (c1 :: u)).map (fun x => (GoAny.map x.1, x.2))
    else none

/-- Reads the members of a non-empty JSON object up to and including its closing
brace. -/
def readMembers : Nat → GoString → Option (List (GoString × GoAny) × GoString)
  | 0, _ => none
  | _ + 1, [] => none
  | fuel + 1, c :: t =>
    if c.val = 0x22 then
      match readString t with
      | some (k, c1 :: u) =>
        if c1.val = 0x3A then
          match readValue fuel u with
          | some (v, c2 :: w) =>
            if c2.val = 0x2C then (readMembers fuel w).map (fun x => ((k, v) :: x.1, x.2))
            else if c2.val = 0x7D then some ([(k, v)], w)
            else none
          | _ => none
        else none
      | _ => none
    else none

end

/-- Reads a whole compact JSON text; every read step consumes a byte, so the length of
the text (plus one) is enough fuel. -/
def Unmarshal (data : GoString) : Option GoAny :=
  match readValue (data.length + 1) data with
  | some (v, []) => some v
  | _ => none

end json

/-- The loop of `json.coerce`, with the number of source bytes left as fuel. -/
def json.coerce.loop : Nat → GoString → GoString
  | _, [] => []
  | 0, _ :: _ => []
  | fuel + 1, b :: t =>
    let d := utf8.DecodeRuneInString (b :: t)
    if d.1 = utf8.RuneError ∧ d.2 = 1 then [0xEF, 0xBF, 0xBD] ++ json.coerce.loop fuel t
    else (b :: t).take d.2 ++ json.coerce.loop fuel ((b :: t).drop d.2)

/-- The Go string `s` coerced to valid UTF-8 the way `encoding/json` documents it: every
byte that is not part of a valid encoding of a rune is replaced by the three bytes of
U+FFFD, every valid encoding is kept. -/
def json.coerce (s : GoString) : GoString := json.coerce.loop s.length s

/-- The text `text`, followed by anything, is read as the value `v` whenever the fuel is
at least `k`. -/
def json.ReadsAs (k : Nat) (text : GoString) (v : GoAny) : Prop :=
  ∀ (fuel : Nat) (rest : GoString), k ≤ fuel → json.readValue fuel (text ++ rest) = some (v, rest)

/-- The value stored under a key of a `map[string]any`, if any. -/
def GoAny.field (key : GoString) : GoAny → Option GoAny
  | .map entries => (entries.find? (fun kv => kv.1 = key)).map (fun kv => kv.2)
  | .string _ => none

/-- The Go string held by a value of type `any`, if it is one. -/
def GoAny.asString : GoAny → Option GoString
  | .string s => some s
  | .map _ => none

/-! ## Library models: `encoding/base64` -/

namespace base64

/-- The alphabet `encodeStd` of `base64.StdEncoding`. -/
def encodeStd : GoString :=
  lit "ABCDEFGHIJKLMNOPQRSTUVWXYZabcdefghijklmnopqrstuvwxyz0123456789+/"

/-- The padding character `StdPadding`, the equals sign. -/
def padChar : Byte := 0x3D

/-- The table lookup `enc.encode[v]`. -/
def encodeChar (v : Nat) : Byte := encodeStd.getD v padChar

/-- The method `base64.StdEncoding.EncodeToString`: three source bytes become four
alphabet characters; a last group of one or two bytes is padded with equals signs. -/
def EncodeToString : GoString → GoString
  | [] => []
  | [a] =>
    let val := a.val * 65536
    [encodeChar (val / 262144 % 64), encodeChar (val / 4096 % 64), padChar, padChar]
  | [a, b] =>
    let val := a.val * 65536 + b.val * 256
    [encodeChar (val / 262144 % 64), encodeChar (val / 4096 % 64),
      encodeChar (val / 64 % 64), padChar]
  | a :: b :: c :: t =>
    let val := a.val * 65536 + b.val * 256 + c.val
    encodeChar (val / 262144 % 64) :: encodeChar (val / 4096 % 64) ::
      encodeChar (val / 64 % 64) :: encodeChar (val % 64) :: EncodeToString t

/-- The six-bit value of an alphabet character (RFC 4648, table 1). -/
def decodeChar (c : Byte) : Option Nat :=
  if encodeStd.indexOf c < 64 then some (encodeStd.indexOf c) else none

/-- Standard padded base64 decoding (RFC 4648, section 4): groups of four characters
become three bytes; padding is only accepted in the last group. -/
def DecodeString : GoString → Option GoString
  | [] => some []
  | c0 :: c1 :: c2 :: c3 :: t =>
    match decodeChar c0, decodeChar c1 with
    | some v0, some v1 =>
      if c2 = padChar then
        if c3 = padChar ∧ t = [] then some [byte (v0 * 4 + v1 / 16)] else none
      else
        match decodeChar c2 with
        | none => none
        | some v2 =>
          if c3 = padChar then
            if t = [] then some [byte (v0 * 4 + v1 / 16), byte (v1 % 16 * 16 + v2 / 4)]
            else none
          else
            match decodeChar c3 with
            | none => none
            | some v3 =>
              (DecodeString t).map (fun r =>
                byte (v0 * 4 + v1 / 16) :: byte (v1 % 16 * 16 + v2 / 4) ::
                  byte (v2 % 4 * 64 + v3) :: r)
    | _, _ => none
  | _ => none

end base64

/-! ## `internal/auth/auth.go` -/

namespace auth

/-- The constant `CloudPlatformScope`. -/
def CloudPlatformScope : GoString := lit "https://www.googleapis.com/auth/cloud-platform"

/-- The map literal `values` of `ExternalAccountCredentialsJson`, entries in the order
of the source text. -/
def ExternalAccountCredentialsJson.values (workloadIdentityProvider file : GoString) :
    GoAny :=
  .map [
    (lit "universe_domain", .string (lit "googleapis.com")),
    (lit "type", .string (lit "external_account")),
    (lit "audience", .string workloadIdentityProvider),
    (lit "subject_token_type", .string (lit "urn:ietf:params:oauth:token-type:jwt")),
    (lit "token_url", .string (lit "https://sts.googleapis.com/v1/token")),
    (lit "credential_source", .map [
      (lit "file", .string file),
      (lit "format", .map [
        (lit "type", .string (lit "text"))])])]

/-- The function `ExternalAccountCredentialsJson` (auth.go:17-38). -/
def ExternalAccountCredentialsJson (workloadIdentityProvider file : GoString) :
    Except GoError GoString :=
  match json.MarshalAny (ExternalAccountCredentialsJson.values workloadIdentityProvider file) with
  | .error err => .error (.external err)
  | .ok credentialsJson => .ok credentialsJson

/-- The function `createTokenSourceFromCredentials` (auth.go:57-69). -/
def createTokenSourceFromCredentials (w : World) (credentialsSecret : Secret) :
    Except GoError oauth2.TokenSource :=
  match w.Plaintext credentialsSecret with
  | .error err => .error (.external err)
  | .ok credentialsJson =>
    match w.CredentialsFromJSON credentialsJson CloudPlatformScope with
    | .error err => .error (.external err)
    | .ok tokenSource => .ok tokenSource

/-- The function `createExternalAccountTokenSource` (auth.go:71-80). -/
def createExternalAccountTokenSource (w : World) (workloadIdentityProvider : GoString)
    (workloadIdentityToken : Secret) : Except GoError oauth2.TokenSource :=
  match w.NewTokenSource
      { Audience := workloadIdentityProvider
        SubjectTokenType := lit "urn:ietf:params:oauth:token-type:jwt"
        SubjectTokenSupplier := workloadIdentityToken
        Scopes := [CloudPlatformScope] } with
  | .error err => .error (.external err)
  | .ok tokenSource => .ok tokenSource

/-- The method `secretTokenSupplier.SubjectToken` (auth.go:86-88). -/
def secretTokenSupplier.SubjectToken (w : World) (s : Secret) : Except GoError GoString :=
  match w.Plaintext s with
  | .error err => .error (.external err)
  | .ok token => .ok token

/-- The function `NewTokenSource` (auth.go:40-55). -/
def NewTokenSource (w : World) (credentialsJson : Option Secret)
    (workloadIdentityProvider : GoString) (workloadIdentityToken : Option Secret) :
    Except GoError oauth2.TokenSource :=
  match credentialsJson with
  | some credentials => createTokenSourceFromCredentials w credentials
  | none =>
    match workloadIdentityToken with
    | some token =>
      if workloadIdentityProvider ≠ [] then
        createExternalAccountTokenSource w workloadIdentityProvider token
      else .error .noValidCredentials
    | none => .error .noValidCredentials

end auth

/-! ## `gcp.go` -/

/-- The struct `Gcp` (gcp.go:41-53). -/
structure Gcp where
  CredentialsJson : Option Secret
  WorkloadIdentityProvider : GoString
  WorkloadIdentityToken : Option Secret
  Registries : List GoString
  deriving DecidableEq

/-- The constructor `New` (gcp.go:12-39). -/
def New (credentialsJson : Option Secret) (workloadIdentityProvider : GoString)
    (workloadIdentityToken : Option Secret) (registries : List GoString) :
    Except GoError Gcp :=
  if credentialsJson = none ∧ workloadIdentityToken = none then
    .error .noCredentials
  else if workloadIdentityToken ≠ none ∧ credentialsJson = none
      ∧ workloadIdentityProvider = [] then
    .error .providerRequired
  else
    .ok
      { CredentialsJson := credentialsJson
        WorkloadIdentityProvider := workloadIdentityProvider
        WorkloadIdentityToken := workloadIdentityToken
        Registries := registries }

/-- The method `Gcp.Mount` (gcp.go:55-77). -/
def Gcp.Mount (m : Gcp) (ctr : Container) : Container :=
  match m.CredentialsJson with
  | some credentials =>
    ((ctr.WithEnvVariable (lit "GOOGLE_APPLICATION_CREDENTIALS") (lit "/.gcp/credentials")
      ).WithEnvVariable (lit "CLOUDSDK_AUTH_CREDENTIAL_FILE_OVERRIDE")
        (lit "/.gcp/credentials")
      ).WithMountedSecret (lit "/.gcp/credentials") credentials []
  | none =>
    match m.WorkloadIdentityToken with
    | some token =>
      if m.WorkloadIdentityProvider ≠ [] then
        match auth.ExternalAccountCredentialsJson m.WorkloadIdentityProvider
            (lit "/.gcp/token") with
        | .error _ => ctr
        | .ok credentialsJson =>
          (((ctr.WithEnvVariable (lit "GOOGLE_APPLICATION_CREDENTIALS")
              (lit "/.gcp/credentials")
            ).WithEnvVariable (lit "CLOUDSDK_AUTH_CREDENTIAL_FILE_OVERRIDE")
              (lit "/.gcp/credentials")
            ).WithNewFile (lit "/.gcp/credentials") credentialsJson
            ).WithMountedSecret (lit "/.gcp/token") token []
      else ctr
    | none => ctr

/-- The method `Gcp.GetAccessToken` (gcp.go:103-133). -/
def Gcp.GetAccessToken (w : World) (m : Gcp) (format : GoString) : Except GoError Secret :=
  if format ≠ lit "json" ∧ format ≠ lit "text" then
    .error (.unsupportedFormat format)
  else
    match auth.NewTokenSource w m.CredentialsJson m.WorkloadIdentityProvider
        m.WorkloadIdentityToken with
    | .error err => .error err
    | .ok ts =>
      match ts.Token with
      | .error err => .error (.external err)
      | .ok token =>
        if format = lit "text" then
          .ok (dag.SetSecret (lit "_gcp_access_token") token.AccessToken)
        else
          match w.MarshalToken token with
          | .error err => .error (.external err)
          | .ok tokenJson => .ok (dag.SetSecret (lit "_gcp_json_access_token") tokenJson)

/-- The method `Gcp.RegistryAuth` (gcp.go:79-91). -/
def Gcp.RegistryAuth (w : World) (m : Gcp) (ctr : Container) : Except GoError Container :=
  match m.GetAccessToken w (lit "text") with
  | .error err => .error err
  | .ok token =>
    .ok (m.Registries.foldl
      (fun c registry => c.WithRegistryAuth registry (lit "oauth2accesstoken") token) ctr)

/-! ## `gcp_registry_config.go` -/

/-- The struct `RegistryConfig` (gcp_registry_config.go:13-25). -/
structure RegistryConfig where
  Path : GoString
  Owner : GoString
  Mode : Int
  Gcp : Gcp
  deriving DecidableEq

/-- The method `Gcp.RegistryConfig` (gcp.go:93-101). -/
def Gcp.RegistryConfig (m : Gcp) (path owner : GoString) (mode : Int) :
    Except GoError RegistryConfig :=
  .ok { Path := path, Owner := owner, Mode := mode, Gcp := m }

/-- The struct `ConfigAuth` (gcp_registry_config.go:63-65). -/
structure ConfigAuth where
  Auth : GoString
  deriving DecidableEq

/-- The allocated Go maps of type `map[string]ConfigAuth`, given by their entries; the
keys of the entries are distinct. -/
abbrev AuthMap := List (GoString × ConfigAuth)

/-- The map assignment `m[key] = value`: replaces the value of an existing key, adds
the entry otherwise. -/
def AuthMap.assign : AuthMap → GoString → ConfigAuth → AuthMap
  | [], key, value => [(key, value)]
  | (k, v) :: t, key, value =>
    if k = key then (key, value) :: t else (k, v) :: AuthMap.assign t key value

/-- The map index expression `m[key]` in its two-result form. -/
def AuthMap.lookup : AuthMap → GoString → Option ConfigAuth
  | [], _ => none
  | (k, v) :: t, key => if k = key then some v else AuthMap.lookup t key

/-- The keys of a map. -/
def AuthMap.keys (m : AuthMap) : List GoString := m.map (fun kv => kv.1)

/-- The struct `Config` (gcp_registry_config.go:59-61); `Auths` is `none` for the nil
map. -/
structure Config where
  Auths : Option AuthMap
  deriving DecidableEq

namespace json

/-- The encoding `json.Marshal` writes for a `ConfigAuth`: one member `auth`. -/
def encodeConfigAuth (a : ConfigAuth) : GoString :=
  [0x7B] ++ appendString (lit "auth") ++ [0x3A] ++ appendString a.Auth ++ [0x7D]

/-- The encoding `json.Marshal` writes for a `Config`: one member `auths`, which is
`null` for the nil map. -/
def encodeConfig (c : Config) : GoString :=
  [0x7B] ++ appendString (lit "auths") ++ [0x3A] ++
    (match c.Auths with
      | none => lit "null"
      | some m => encodeMap (m.map (fun kv => (kv.1, encodeConfigAuth kv.2))))
    ++ [0x7D]

/-- The call `json.Marshal(c)` for a `*Config`; it has no failing case for this type. -/
def MarshalConfig (c : Config) : Except ExtError GoString := .ok (encodeConfig c)

end json

namespace sha1

/-- The method `Write` of the hash returned by `sha1.New()`, on the bytes written so
far; by the contract of `hash.Hash` it never returns an error. -/
def Write (written p : GoString) : Except ExtError GoString := .ok (written ++ p)

/-- The method `Sum(nil)`: the digest of the bytes written so far. -/
def Sum (w : World) (written : GoString) : GoString := w.sha1Sum written

end sha1

/-- The method `Config.toSecret` (gcp_registry_config.go:67-81). -/
def Config.toSecret (w : World) (c : Config) : Except GoError Secret :=
  match json.MarshalConfig c with
  | .error err => .error (.external err)
  | .ok out =>
    match sha1.Write [] out with
    | .error err => .error (.external err)
    | .ok h =>
      let name := lit "_gcp_registry_config_" ++ fmtHex (sha1.Sum w h)
      .ok (dag.SetSecret name out)

/-- The value of `auth` that `RegistryConfig.Mount` stores for every registry
(gcp_registry_config.go:43). -/
def RegistryConfig.Mount.auth (token : oauth2.Token) : GoString :=
  base64.EncodeToString (lit "oauth2accesstoken" ++ [0x3A] ++ token.AccessToken)

/-- The loop of `RegistryConfig.Mount` (gcp_registry_config.go:41-45) on the map of the
document. -/
def RegistryConfig.Mount.fill (registries : List GoString) (token : oauth2.Token)
    (auths : AuthMap) : AuthMap :=
  registries.foldl
    (fun m registry => AuthMap.assign m registry { Auth := RegistryConfig.Mount.auth token })
    auths

/-- The first part of `RegistryConfig.Mount` (gcp_registry_config.go:28-46): the
document `c` that is handed to `toSecret`. -/
def RegistryConfig.Mount.config (w : World) (m : RegistryConfig) : Except GoError Config :=
  if m.Gcp.Registries.length ≠ 0 then
    match auth.NewTokenSource w m.Gcp.CredentialsJson m.Gcp.WorkloadIdentityProvider
        m.Gcp.WorkloadIdentityToken with
    | .error err => .error err
    | .ok ts =>
      match ts.Token with
      | .error err => .error (.external err)
      | .ok token =>
        .ok { Auths := some (RegistryConfig.Mount.fill m.Gcp.Registries token []) }
  else
    .ok { Auths := some [] }

/-- The method `RegistryConfig.Mount` (gcp_registry_config.go:27-57). -/
def RegistryConfig.Mount (w : World) (m : RegistryConfig) (ctr : Container) :
    Except GoError Container :=
  match RegistryConfig.Mount.config w m with
  | .error err => .error err
  | .ok c =>
    match c.toSecret w with
    | .error err => .error err
    | .ok secret =>
      .ok (ctr.WithMountedSecret m.Path secret [{ Owner := m.Owner, Mode := m.Mode }])

/-! ## Concrete collaborators for the examples -/

/-- A token with the given access-token value. -/
def sampleToken (value : GoString) : oauth2.Token :=
  { AccessToken := value, TokenType := lit "Bearer", RefreshToken := [], Expiry := 0 }

/-- A world in which every secret is readable, every credential yields a token source
whose token is `sampleToken (lit "TOKEN")`, and tokens serialise. -/
def sampleWorld : World :=
  { Plaintext := fun _ => .ok (lit "secret")
    CredentialsFromJSON := fun _ _ => .ok { Token := .ok (sampleToken (lit "TOKEN")) }
    NewTokenSource := fun _ => .ok { Token := .ok (sampleToken (lit "TOKEN")) }
    MarshalToken := fun t => .ok (json.appendString t.AccessToken)
    sha1Sum := fun _ => [] }

/-- A token that expires at 10000-01-01T00:00:00Z, the first instant whose year
`time.Time.MarshalJSON` rejects. -/
def farExpiryToken : oauth2.Token :=
  { AccessToken := lit "TOKEN", TokenType := lit "Bearer", RefreshToken := [],
    Expiry := 253402300800 }

/-- The world `sampleWorld`, except that the token of every token source is
`farExpiryToken` and that serialising a token fails, as `json.Marshal` does, when the
year of its expiry is outside 0..9999. -/
def farExpiryWorld : World :=
  { sampleWorld with
    CredentialsFromJSON := fun _ _ => .ok { Token := .ok farExpiryToken }
    NewTokenSource := fun _ => .ok { Token := .ok farExpiryToken }
    MarshalToken := fun t =>
      if t.Expiry < -62167219200 ∨ 253402300800 ≤ t.Expiry then
        .error { msg := lit "Time.MarshalJSON: year outside of range [0,9999]" }
      else .ok (json.appendString t.AccessToken) }

/-- The world `sampleWorld`, except that no token source can be built. -/
def noTokenSourceWorld : World :=
  { sampleWorld with
    CredentialsFromJSON := fun _ _ => .error { msg := lit "invalid credentials" }
    NewTokenSource := fun _ => .error { msg := lit "exchange failed" } }

/-- A `Gcp` holding a static key and the given registries. -/
def staticGcp (registries : List GoString) : Gcp :=
  { CredentialsJson := some (.handle 0), WorkloadIdentityProvider := [],
    WorkloadIdentityToken := none, Registries := registries }

/-! ## Theorems

### Credential resolution (`New`, `NewTokenSource`, `Gcp.Mount`) -/

/-- C1: `New` returns an error (and no `Gcp`) exactly when `credentialsJson` is absent
and either `workloadIdentityToken` is absent or `workloadIdentityProvider` is empty; in
every other case it returns the `Gcp` holding the four arguments. In particular it
fails when both secrets are absent, whatever the provider, and when only the token is
given with an empty provider. -/
theorem New_fails_exactly_when_unresolvable (credentialsJson : Option Secret)
    (workloadIdentityProvider : GoString) (workloadIdentityToken : Option Secret)
    (registries : List GoString) :
    ((∃ err, New credentialsJson workloadIdentityProvider workloadIdentityToken registries
        = .error err)
      ↔ (credentialsJson = none
          ∧ (workloadIdentityToken = none ∨ workloadIdentityProvider = [])))
    ∧ (New credentialsJson workloadIdentityProvider workloadIdentityToken registries
        = .ok ⟨credentialsJson, workloadIdentityProvider, workloadIdentityToken, registries⟩
      ↔ ¬ (credentialsJson = none
          ∧ (workloadIdentityToken = none ∨ workloadIdentityProvider = [])))
    ∧ New none workloadIdentityProvider none registries = .error .noCredentials
    ∧ (∀ token, New none [] (some token) registries = .error .providerRequired) := by
  refine ⟨?_, ?_, ?_, ?_⟩
  · cases credentialsJson <;> cases workloadIdentityToken <;>
      by_cases hp : workloadIdentityProvider = [] <;> simp [New, hp]
  · cases credentialsJson <;> cases workloadIdentityToken <;>
      by_cases hp : workloadIdentityProvider = [] <;> simp [New, hp]
  · simp [New]
  · intro token
    simp [New]

/-- C2: with `credentialsJson` present, `NewTokenSource` returns exactly what the
static-key path `createTokenSourceFromCredentials` returns on that key, token source or
error, for every provider and token; replacing the federated collaborator by any other
one does not change the result, so the federated path is never taken, not even after an
error of the static path. -/
theorem NewTokenSource_static_key_takes_precedence (w : World) (credentials : Secret)
    (workloadIdentityProvider : GoString) (workloadIdentityToken : Option Secret) :
    auth.NewTokenSource w (some credentials) workloadIdentityProvider workloadIdentityToken
        = auth.createTokenSourceFromCredentials w credentials
    ∧ (∀ err, auth.createTokenSourceFromCredentials w credentials = .error err →
        auth.NewTokenSource w (some credentials) workloadIdentityProvider
          workloadIdentityToken = .error err)
    ∧ (∀ federated : externalaccount.Config → Except ExtError oauth2.TokenSource,
        auth.NewTokenSource { w with NewTokenSource := federated } (some credentials)
            workloadIdentityProvider workloadIdentityToken
          = auth.NewTokenSource w (some credentials) workloadIdentityProvider
              workloadIdentityToken) := by
  refine ⟨rfl, ?_, ?_⟩
  · intro err h
    simpa [auth.NewTokenSource] using h
  · intro federated
    simp [auth.NewTokenSource, auth.createTokenSourceFromCredentials]

/-- C8: when `CredentialsJson` is absent and the provider is empty or the token is
absent, `Gcp.Mount` returns the container it was given. -/
theorem Mount_unresolvable_returns_container (m : Gcp) (ctr : Container)
    (h : m.CredentialsJson = none
      ∧ (m.WorkloadIdentityProvider = [] ∨ m.WorkloadIdentityToken = none)) :
    m.Mount ctr = ctr := by
  obtain ⟨hc, hp⟩ := h
  unfold Gcp.Mount
  rw [hc]
  cases ht : m.WorkloadIdentityToken with
  | none => rfl
  | some token =>
    rcases hp with hp | hp
    · simp [hp]
    · rw [ht] at hp
      cases hp

/-- C8, at a concrete input: a token without a provider. -/
theorem Mount_unresolvable_returns_container_witness :
    (⟨none, [], some (.handle 1), [lit "gcr.io"]⟩ : Gcp).Mount ⟨7, []⟩ = ⟨7, []⟩ :=
  Mount_unresolvable_returns_container ⟨none, [], some (.handle 1), [lit "gcr.io"]⟩ ⟨7, []⟩
    ⟨rfl, Or.inl rfl⟩

/-- The builder calls of a container after the loop of `RegistryAuth`. -/
theorem foldl_WithRegistryAuth (registries : List GoString) (username : GoString)
    (token : Secret) (ctr : Container) :
    registries.foldl (fun c registry => c.WithRegistryAuth registry username token) ctr
      = { base := ctr.base
          ops := ctr.ops ++
            registries.map (fun registry => .WithRegistryAuth registry username token) } := by
  induction registries generalizing ctr with
  | nil => simp
  | cons r t ih =>
    rw [List.foldl_cons, ih]
    simp [Container.WithRegistryAuth]

/-- C9: `Gcp.RegistryAuth` fetches a text-format token first. If the fetch fails, the
error is the result and there is no container. If it succeeds with the secret `token`,
the result is the given container with one `WithRegistryAuth(host, "oauth2accesstoken",
token)` call appended per element of `Registries`, in list order; with no registries it
is the given container. The secret `token` holds the access-token value fetched from
the token source. -/
theorem RegistryAuth_attaches_one_login_per_registry (w : World) (m : Gcp)
    (ctr : Container) :
    (∀ err, m.GetAccessToken w (lit "text") = .error err →
        m.RegistryAuth w ctr = .error err)
    ∧ (∀ token, m.GetAccessToken w (lit "text") = .ok token →
        m.RegistryAuth w ctr
          = .ok (m.Registries.foldl
              (fun c registry => c.WithRegistryAuth registry (lit "oauth2accesstoken") token)
              ctr)
        ∧ m.RegistryAuth w ctr
          = .ok { base := ctr.base
                  ops := ctr.ops ++ m.Registries.map
                    (fun registry =>
                      .WithRegistryAuth registry (lit "oauth2accesstoken") token) }
        ∧ (m.Registries = [] → m.RegistryAuth w ctr = .ok ctr))
    ∧ (∀ ts token,
        auth.NewTokenSource w m.CredentialsJson m.WorkloadIdentityProvider
            m.WorkloadIdentityToken = .ok ts →
        ts.Token = .ok token →
        m.RegistryAuth w ctr
          = .ok { base := ctr.base
                  ops := ctr.ops ++ m.Registries.map
                    (fun registry =>
                      .WithRegistryAuth registry (lit "oauth2accesstoken")
                        (dag.SetSecret (lit "_gcp_access_token") token.AccessToken)) }) := by
  refine ⟨?_, ?_, ?_⟩
  · intro err h
    simp [Gcp.RegistryAuth, h]
  · intro token h
    refine ⟨by simp [Gcp.RegistryAuth, h], ?_, ?_⟩
    · simp [Gcp.RegistryAuth, h, foldl_WithRegistryAuth]
    · intro hr
      simp [Gcp.RegistryAuth, h, hr]
  · intro ts token hts htoken
    have hne : lit "text" ≠ lit "json" := by decide
    have h : m.GetAccessToken w (lit "text")
        = .ok (dag.SetSecret (lit "_gcp_access_token") token.AccessToken) := by
      simp only [Gcp.GetAccessToken, hne, hts, htoken, ne_eq, not_true_eq_false, and_false,
        if_false, if_true]
    simp only [Gcp.RegistryAuth, h, foldl_WithRegistryAuth]

/-- C9, at a concrete input: two registries and the token `TOKEN` of `sampleWorld`. -/
theorem RegistryAuth_attaches_one_login_per_registry_witness :
    (staticGcp [lit "gcr.io", lit "eu.gcr.io"]).RegistryAuth sampleWorld ⟨0, []⟩
      = .ok ⟨0, [
          .WithRegistryAuth (lit "gcr.io") (lit "oauth2accesstoken")
            (dag.SetSecret (lit "_gcp_access_token") (lit "TOKEN")),
          .WithRegistryAuth (lit "eu.gcr.io") (lit "oauth2accesstoken")
            (dag.SetSecret (lit "_gcp_access_token") (lit "TOKEN"))]⟩ :=
  ((RegistryAuth_attaches_one_login_per_registry sampleWorld
    (staticGcp [lit "gcr.io", lit "eu.gcr.io"]) ⟨0, []⟩).2.1
    (dag.SetSecret (lit "_gcp_access_token") (lit "TOKEN")) rfl).2.1

/-! ### Token exposure (`Gcp.GetAccessToken`) -/

/-- The errors of `NewTokenSource` are those of its collaborators and the error `no
valid credentials found`. -/
theorem NewTokenSource_error_kinds (w : World) (credentialsJson : Option Secret)
    (workloadIdentityProvider : GoString) (workloadIdentityToken : Option Secret)
    (err : GoError)
    (h : auth.NewTokenSource w credentialsJson workloadIdentityProvider
      workloadIdentityToken = .error err) :
    err = .noValidCredentials ∨ ∃ e, err = .external e := by
  unfold auth.NewTokenSource at h
  split at h
  · unfold auth.createTokenSourceFromCredentials at h
    split at h
    · injection h with h
      exact Or.inr ⟨_, h.symm⟩
    · split at h
      · injection h with h
        exact Or.inr ⟨_, h.symm⟩
      · cases h
  · split at h
    · split at h
      · unfold auth.createExternalAccountTokenSource at h
        split at h
        · injection h with h
          exact Or.inr ⟨_, h.symm⟩
        · cases h
      · injection h with h
        exact Or.inl h.symm
    · injection h with h
      exact Or.inl h.symm

/-- For the formats `text` and `json`, no result of `GetAccessToken` is an
unsupported-format error. -/
theorem GetAccessToken_supported_format (w : World) (m : Gcp) (format rejected : GoString)
    (hf : format = lit "text" ∨ format = lit "json") :
    m.GetAccessToken w format ≠ .error (.unsupportedFormat rejected) := by
  have hne : lit "text" ≠ lit "json" := by decide
  intro h
  unfold Gcp.GetAccessToken at h
  have hgate : ¬ (format ≠ lit "json" ∧ format ≠ lit "text") := by
    rcases hf with hf | hf <;> simp [hf]
  rw [if_neg hgate] at h
  split at h
  · rename_i err hts
    injection h with h
    rcases NewTokenSource_error_kinds w _ _ _ err hts with h1 | ⟨e, h1⟩ <;>
      rw [h1] at h <;> cases h
  · split at h
    · cases h
    · split at h
      · cases h
      · split at h <;> cases h

/-- C3, as stated, fails for format `json`: in `farExpiryWorld` the token source of
`staticGcp []` is built and its token, which expires in the year 10000, is fetched, so
that format `text` succeeds; yet format `json` returns the error of the serialisation of
the token (gcp.go:127-130). -/
theorem GetAccessToken_json_fails_when_serialisation_fails :
    (∃ ts token,
        auth.NewTokenSource farExpiryWorld (staticGcp []).CredentialsJson
            (staticGcp []).WorkloadIdentityProvider (staticGcp []).WorkloadIdentityToken
          = .ok ts
        ∧ ts.Token = .ok token)
    ∧ (staticGcp []).GetAccessToken farExpiryWorld (lit "text")
        = .ok (dag.SetSecret (lit "_gcp_access_token") (lit "TOKEN"))
    ∧ (staticGcp []).GetAccessToken farExpiryWorld (lit "json")
        = .error (.external
            { msg := lit "Time.MarshalJSON: year outside of range [0,9999]" }) :=
  ⟨⟨{ Token := .ok farExpiryToken }, farExpiryToken, rfl, rfl⟩, by decide, by decide⟩

/-- C3 (amended): `GetAccessToken` returns the unsupported-format error exactly when the
format is neither `text` nor `json`, and then for every world and every credentials,
with the rejected format in the error. For `text` and `json` the result is that of
building the token source and fetching the token, followed for `json` by serialising
the token: `text` succeeds whenever the first two succeed, `json` whenever all three
succeed. -/
theorem GetAccessToken_format_gate (w : World) (m : Gcp) (format : GoString) :
    ((∃ rejected, m.GetAccessToken w format = .error (.unsupportedFormat rejected))
      ↔ (format ≠ lit "text" ∧ format ≠ lit "json"))
    ∧ ((format ≠ lit "text" ∧ format ≠ lit "json") →
        m.GetAccessToken w format = .error (.unsupportedFormat format))
    ∧ (∀ ts token,
        auth.NewTokenSource w m.CredentialsJson m.WorkloadIdentityProvider
            m.WorkloadIdentityToken = .ok ts →
        ts.Token = .ok token →
        m.GetAccessToken w (lit "text")
            = .ok (dag.SetSecret (lit "_gcp_access_token") token.AccessToken)
        ∧ (∀ tokenJson, w.MarshalToken token = .ok tokenJson →
            m.GetAccessToken w (lit "json")
              = .ok (dag.SetSecret (lit "_gcp_json_access_token") tokenJson))) := by
  have hne : lit "text" ≠ lit "json" := by decide
  refine ⟨?_, ?_, ?_⟩
  · constructor
    · rintro ⟨rejected, h⟩
      by_contra hc
      have hf : format = lit "text" ∨ format = lit "json" := by
        by_cases h1 : format = lit "text"
        · exact Or.inl h1
        · by_cases h2 : format = lit "json"
          · exact Or.inr h2
          · exact absurd ⟨h1, h2⟩ hc
      exact GetAccessToken_supported_format w m format rejected hf h
    · rintro ⟨h1, h2⟩
      exact ⟨format, by simp [Gcp.GetAccessToken, h1, h2]⟩
  · rintro ⟨h1, h2⟩
    simp [Gcp.GetAccessToken, h1, h2]
  · intro ts token hts htok
    refine ⟨?_, ?_⟩
    · simp [Gcp.GetAccessToken, hne, hts, htok]
    · intro tokenJson hm
      simp [Gcp.GetAccessToken, hne.symm, hts, htok, hm]

/-- C3 (amended), at concrete inputs: the format `xml` is rejected even where no token
source can be built, and `text` succeeds in `sampleWorld`. -/
theorem GetAccessToken_format_gate_witness :
    (staticGcp []).GetAccessToken noTokenSourceWorld (lit "xml")
        = .error (.unsupportedFormat (lit "xml"))
    ∧ (staticGcp []).GetAccessToken sampleWorld (lit "text")
        = .ok (dag.SetSecret (lit "_gcp_access_token") (lit "TOKEN")) :=
  ⟨(GetAccessToken_format_gate noTokenSourceWorld (staticGcp []) (lit "xml")).2.1
      (by decide),
    ((GetAccessToken_format_gate sampleWorld (staticGcp []) (lit "text")).2.2
      { Token := .ok (sampleToken (lit "TOKEN")) } (sampleToken (lit "TOKEN")) rfl rfl).1⟩

/-! ### What `New` guarantees to the later operations -/

/-- The static-key path never fails with `no valid credentials found`. -/
theorem createTokenSourceFromCredentials_ne_noValidCredentials (w : World)
    (credentials : Secret) :
    auth.createTokenSourceFromCredentials w credentials ≠ .error .noValidCredentials := by
  unfold auth.createTokenSourceFromCredentials
  intro h
  split at h
  · cases h
  · split at h <;> cases h

/-- The federated path never fails with `no valid credentials found`. -/
theorem createExternalAccountTokenSource_ne_noValidCredentials (w : World)
    (workloadIdentityProvider : GoString) (token : Secret) :
    auth.createExternalAccountTokenSource w workloadIdentityProvider token
      ≠ .error .noValidCredentials := by
  unfold auth.createExternalAccountTokenSource
  intro h
  split at h <;> cases h

/-- A container to which builder calls were appended is not the container itself. -/
theorem Container.ne_of_ops_append (ctr : Container) (base : Nat) (op : ContainerOp)
    (more : List ContainerOp) :
    ({ base := base, ops := ctr.ops ++ op :: more } : Container) ≠ ctr := by
  intro h
  have hl := congrArg (fun c => c.ops.length) h
  simp at hl

/-- C10: a `Gcp` returned by `New` has a resolvable credential shape: `CredentialsJson`
is present, or `WorkloadIdentityToken` is present and `WorkloadIdentityProvider` is not
empty. For such a `Gcp`, `NewTokenSource` on its three credential fields is the result
of one of the two credential paths and never the error `no valid credentials found`,
and `Gcp.Mount` returns the container of one of its two mounting branches, never the
given container. -/
theorem New_result_is_resolvable (credentialsJson : Option Secret)
    (workloadIdentityProvider : GoString) (workloadIdentityToken : Option Secret)
    (registries : List GoString) (g : Gcp)
    (h : New credentialsJson workloadIdentityProvider workloadIdentityToken registries
      = .ok g) :
    (g.CredentialsJson ≠ none
      ∨ (g.WorkloadIdentityToken ≠ none ∧ g.WorkloadIdentityProvider ≠ []))
    ∧ (∀ w : World,
        auth.NewTokenSource w g.CredentialsJson g.WorkloadIdentityProvider
            g.WorkloadIdentityToken ≠ .error .noValidCredentials
        ∧ ((∃ credentials, g.CredentialsJson = some credentials
              ∧ auth.NewTokenSource w g.CredentialsJson g.WorkloadIdentityProvider
                  g.WorkloadIdentityToken
                = auth.createTokenSourceFromCredentials w credentials)
          ∨ (∃ token, g.CredentialsJson = none ∧ g.WorkloadIdentityToken = some token
              ∧ auth.NewTokenSource w g.CredentialsJson g.WorkloadIdentityProvider
                  g.WorkloadIdentityToken
                = auth.createExternalAccountTokenSource w g.WorkloadIdentityProvider
                    token)))
    ∧ (∀ ctr : Container,
        g.Mount ctr ≠ ctr
        ∧ ((∃ credentials, g.CredentialsJson = some credentials
              ∧ g.Mount ctr
                = ((ctr.WithEnvVariable (lit "GOOGLE_APPLICATION_CREDENTIALS")
                      (lit "/.gcp/credentials")
                    ).WithEnvVariable (lit "CLOUDSDK_AUTH_CREDENTIAL_FILE_OVERRIDE")
                      (lit "/.gcp/credentials")
                    ).WithMountedSecret (lit "/.gcp/credentials") credentials [])
          ∨ (∃ token descriptor, g.CredentialsJson = none
              ∧ g.WorkloadIdentityToken = some token
              ∧ auth.ExternalAccountCredentialsJson g.WorkloadIdentityProvider
                  (lit "/.gcp/token") = .ok descriptor
              ∧ g.Mount ctr
                = (((ctr.WithEnvVariable (lit "GOOGLE_APPLICATION_CREDENTIALS")
                      (lit "/.gcp/credentials")
                    ).WithEnvVariable (lit "CLOUDSDK_AUTH_CREDENTIAL_FILE_OVERRIDE")
                      (lit "/.gcp/credentials")
                    ).WithNewFile (lit "/.gcp/credentials") descriptor
                    ).WithMountedSecret (lit "/.gcp/token") token []))) := by
  unfold New at h
  split at h
  · cases h
  · split at h
    · cases h
    · rename_i h1 h2
      injection h with h
      subst h
      cases credentialsJson with
      | some credentials =>
        refine ⟨Or.inl (by simp), fun w => ⟨?_, Or.inl ⟨credentials, rfl, rfl⟩⟩,
          fun ctr => ⟨?_, Or.inl ⟨credentials, rfl, rfl⟩⟩⟩
        · exact createTokenSourceFromCredentials_ne_noValidCredentials w credentials
        · simp only [Gcp.Mount, Container.WithEnvVariable, Container.WithMountedSecret,
            List.append_assoc, List.singleton_append]
          exact Container.ne_of_ops_append ctr _ _ _
      | none =>
        cases workloadIdentityToken with
        | none => exact absurd ⟨rfl, rfl⟩ h1
        | some token =>
          have hp : workloadIdentityProvider ≠ [] := by
            intro hp
            exact h2 ⟨by simp, rfl, hp⟩
          refine ⟨Or.inr ⟨by simp, hp⟩, fun w => ⟨?_, Or.inr ⟨token, rfl, rfl, ?_⟩⟩,
            fun ctr => ⟨?_, Or.inr ⟨token, _, rfl, rfl, rfl, ?_⟩⟩⟩
          · simp only [auth.NewTokenSource, hp, ne_eq, not_false_eq_true, if_true]
            exact createExternalAccountTokenSource_ne_noValidCredentials w _ token
          · simp [auth.NewTokenSource, hp]
          · simp only [Gcp.Mount, hp, ne_eq, not_false_eq_true, if_true,
              auth.ExternalAccountCredentialsJson, json.MarshalAny,
              Container.WithEnvVariable, Container.WithMountedSecret,
              Container.WithNewFile, List.append_assoc, List.singleton_append]
            exact Container.ne_of_ops_append ctr _ _ _
          · simp [Gcp.Mount, hp, auth.ExternalAccountCredentialsJson, json.MarshalAny]

/-- C10, at a concrete input: a token with a provider and no static key. -/
theorem New_result_is_resolvable_witness :
    ((⟨none, lit "p", some (.handle 1), []⟩ : Gcp).CredentialsJson ≠ none
      ∨ ((⟨none, lit "p", some (.handle 1), []⟩ : Gcp).WorkloadIdentityToken ≠ none
        ∧ (⟨none, lit "p", some (.handle 1), []⟩ : Gcp).WorkloadIdentityProvider ≠ []))
    ∧ (⟨none, lit "p", some (.handle 1), []⟩ : Gcp).Mount ⟨0, []⟩ ≠ ⟨0, []⟩ :=
  have h := New_result_is_resolvable none (lit "p") (some (.handle 1)) []
    ⟨none, lit "p", some (.handle 1), []⟩ (by decide)
  ⟨h.1, (h.2.2 ⟨0, []⟩).1⟩

/-! ### Facts about the library models -/

/-- A byte is the byte of its value. -/
theorem byte_val (b : Byte) : byte b.val = b := by
  apply Fin.ext
  simp [byte]

/-- A number that is the value of a byte gives that byte. -/
theorem byte_eq_of_val (n : Nat) (b : Byte) (h : n = b.val) : byte n = b := by
  rw [h, byte_val]

/-- The alphabet lookup is inverted by `decodeChar` and never gives the padding
character, checked on all 64 values. -/
theorem base64.decodeChar_encodeChar_fin :
    ∀ v : Fin 64, base64.decodeChar (base64.encodeChar v.val) = some v.val
      ∧ base64.encodeChar v.val ≠ base64.padChar := by
  decide

/-- The six-bit value of the character written for a six-bit value. -/
theorem base64.decodeChar_encodeChar (v : Nat) (h : v < 64) :
    base64.decodeChar (base64.encodeChar v) = some v :=
  (base64.decodeChar_encodeChar_fin ⟨v, h⟩).1

/-- No alphabet character is the padding character. -/
theorem base64.encodeChar_ne_padChar (v : Nat) (h : v < 64) :
    base64.encodeChar v ≠ base64.padChar :=
  (base64.decodeChar_encodeChar_fin ⟨v, h⟩).2

/-- Decoding the standard padded base64 encoding of a byte sequence gives the sequence
back. -/
theorem base64.DecodeString_EncodeToString (s : GoString) :
    base64.DecodeString (base64.EncodeToString s) = some s := by
  induction s using base64.EncodeToString.induct with
  | case1 => rfl
  | case2 a =>
    have ha := a.isLt
    simp only [base64.EncodeToString, base64.DecodeString]
    rw [decodeChar_encodeChar _ (Nat.mod_lt _ (by decide)),
      decodeChar_encodeChar _ (Nat.mod_lt _ (by decide))]
    simp only [and_self, if_true]
    rw [byte_eq_of_val _ a (by omega)]
  | case3 a b =>
    have ha := a.isLt
    have hb := b.isLt
    simp only [base64.EncodeToString, base64.DecodeString]
    rw [decodeChar_encodeChar _ (Nat.mod_lt _ (by decide)),
      decodeChar_encodeChar _ (Nat.mod_lt _ (by decide)),
      decodeChar_encodeChar _ (Nat.mod_lt _ (by decide))]
    simp only [encodeChar_ne_padChar _ (Nat.mod_lt _ (by decide)), if_false, if_true]
    rw [byte_eq_of_val _ a (by omega), byte_eq_of_val _ b (by omega)]
  | case4 a b c t ih =>
    have ha := a.isLt
    have hb := b.isLt
    have hc := c.isLt
    simp only [base64.EncodeToString, base64.DecodeString]
    rw [decodeChar_encodeChar _ (Nat.mod_lt _ (by decide)),
      decodeChar_encodeChar _ (Nat.mod_lt _ (by decide)),
      decodeChar_encodeChar _ (Nat.mod_lt _ (by decide)),
      decodeChar_encodeChar _ (Nat.mod_lt _ (by decide))]
    simp only [encodeChar_ne_padChar _ (Nat.mod_lt _ (by decide)), if_false, ih, Option.map_some']
    rw [byte_eq_of_val _ a (by omega), byte_eq_of_val _ b (by omega),
      byte_eq_of_val _ c (by omega)]

/-- The keys after `m[key] = value` are `key` and the keys before. -/
theorem AuthMap.mem_keys_assign (m : AuthMap) (key : GoString) (value : ConfigAuth)
    (k : GoString) :
    k ∈ AuthMap.keys (AuthMap.assign m key value) ↔ k = key ∨ k ∈ AuthMap.keys m := by
  induction m with
  | nil => simp [AuthMap.assign, AuthMap.keys]
  | cons kv t ih =>
    obtain ⟨k0, v0⟩ := kv
    simp only [AuthMap.assign]
    by_cases h : k0 = key
    · subst h
      simp [AuthMap.keys]
    · simp only [h, if_false]
      simp only [AuthMap.keys, List.map_cons, List.mem_cons] at ih ⊢
      rw [ih]
      tauto

/-- The assignment `m[key] = value` keeps the keys distinct. -/
theorem AuthMap.nodup_keys_assign (m : AuthMap) (key : GoString) (value : ConfigAuth)
    (h : (AuthMap.keys m).Nodup) : (AuthMap.keys (AuthMap.assign m key value)).Nodup := by
  induction m with
  | nil => simp [AuthMap.assign, AuthMap.keys]
  | cons kv t ih =>
    obtain ⟨k0, v0⟩ := kv
    simp only [AuthMap.keys, List.map_cons, List.nodup_cons] at h
    simp only [AuthMap.assign]
    by_cases hk : k0 = key
    · subst hk
      simpa [AuthMap.keys] using h
    · simp only [hk, if_false, AuthMap.keys, List.map_cons, List.nodup_cons]
      refine ⟨?_, ih h.2⟩
      intro hmem
      have := (AuthMap.mem_keys_assign t key value k0).1 hmem
      rcases this with h1 | h1
      · exact hk h1
      · exact h.1 h1

/-- After `m[key] = value`, `key` maps to `value` and every other key is unchanged. -/
theorem AuthMap.lookup_assign (m : AuthMap) (key : GoString) (value : ConfigAuth)
    (k : GoString) :
    AuthMap.lookup (AuthMap.assign m key value) k
      = if k = key then some value else AuthMap.lookup m k := by
  induction m with
  | nil =>
    by_cases h : k = key
    · simp [AuthMap.assign, AuthMap.lookup, h]
    · have h' : ¬ key = k := fun e => h e.symm
      simp [AuthMap.assign, AuthMap.lookup, h, h']
  | cons kv t ih =>
    obtain ⟨k0, v0⟩ := kv
    simp only [AuthMap.assign]
    by_cases hk : k0 = key
    · subst hk
      by_cases h : k = k0
      · simp [AuthMap.lookup, h]
      · have h' : ¬ k0 = k := fun e => h e.symm
        simp [AuthMap.lookup, h, h']
    · simp only [hk, if_false, AuthMap.lookup, ih]
      by_cases h : k0 = k
      · have : ¬ k = key := fun e => hk (h.trans e)
        simp [h, this]
      · simp [h]

/-- The keys after the loop of `RegistryConfig.Mount` are the registries and the keys
before. -/
theorem fill_keys (registries : List GoString) (token : oauth2.Token) (auths : AuthMap)
    (k : GoString) :
    k ∈ AuthMap.keys (RegistryConfig.Mount.fill registries token auths)
      ↔ k ∈ registries ∨ k ∈ AuthMap.keys auths := by
  induction registries generalizing auths with
  | nil => simp [RegistryConfig.Mount.fill]
  | cons r t ih =>
    simp only [RegistryConfig.Mount.fill, List.foldl_cons] at ih ⊢
    rw [ih, AuthMap.mem_keys_assign]
    simp only [List.mem_cons]
    tauto

/-- The loop of `RegistryConfig.Mount` keeps the keys distinct. -/
theorem fill_nodup (registries : List GoString) (token : oauth2.Token) (auths : AuthMap)
    (h : (AuthMap.keys auths).Nodup) :
    (AuthMap.keys (RegistryConfig.Mount.fill registries token auths)).Nodup := by
  induction registries generalizing auths with
  | nil => simpa [RegistryConfig.Mount.fill] using h
  | cons r t ih =>
    simp only [RegistryConfig.Mount.fill, List.foldl_cons] at ih ⊢
    exact ih _ (AuthMap.nodup_keys_assign auths r _ h)

/-- After the loop of `RegistryConfig.Mount` every registry maps to the auth value of the
token and every other key is unchanged. -/
theorem fill_lookup (registries : List GoString) (token : oauth2.Token) (auths : AuthMap)
    (k : GoString) :
    AuthMap.lookup (RegistryConfig.Mount.fill registries token auths) k
      = if k ∈ registries then some { Auth := RegistryConfig.Mount.auth token }
        else AuthMap.lookup auths k := by
  induction registries generalizing auths with
  | nil => simp [RegistryConfig.Mount.fill]
  | cons r t ih =>
    simp only [RegistryConfig.Mount.fill, List.foldl_cons] at ih ⊢
    rw [ih, AuthMap.lookup_assign]
    by_cases h1 : k ∈ t
    · simp [h1]
    · by_cases h2 : k = r
      · simp [h1, h2]
      · simp [h1, h2]

/-- The byte-wise order of Go strings is total. -/
theorem strings.compare_total (a b : GoString) : strings.le a b = true ∨ strings.le b a = true := by
  induction a generalizing b with
  | nil => exact Or.inl (by simp [strings.le])
  | cons x s ih =>
    cases b with
    | nil => exact Or.inr (by simp [strings.le])
    | cons y t =>
      simp only [strings.le]
      rcases lt_trichotomy x y with h | h | h
      · simp [h]
      · subst h
        simpa using ih t
      · simp [h]

/-- The byte-wise order of Go strings is transitive. -/
theorem strings.compare_trans (a b c : GoString) (hab : strings.le a b = true)
    (hbc : strings.le b c = true) : strings.le a c = true := by
  induction a generalizing b c with
  | nil => simp [strings.le]
  | cons x s ih =>
    cases b with
    | nil => simp [strings.le] at hab
    | cons y t =>
      cases c with
      | nil => simp [strings.le] at hbc
      | cons z u =>
        simp only [strings.le] at hab hbc ⊢
        by_cases hxy : x < y
        · by_cases hyz : y < z
          · simp [lt_trans hxy hyz]
          · simp only [hyz, if_false] at hbc
            by_cases hzy : z < y
            · simp [hzy] at hbc
            · have : y = z := le_antisymm (not_lt.mp hzy) (not_lt.mp hyz)
              subst this
              simp [hxy]
        · simp only [hxy, if_false] at hab
          by_cases hyx : y < x
          · simp [hyx] at hab
          · have : x = y := le_antisymm (not_lt.mp hyx) (not_lt.mp hxy)
            subst this
            simp only [lt_self_iff_false, if_false] at hab
            by_cases hxz : x < z
            · simp [hxz]
            · simp only [hxz, if_false] at hbc ⊢
              by_cases hzx : z < x
              · simp [hzx] at hbc
              · simp only [hzx, if_false] at hbc ⊢
                exact ih t u hab hbc

/-- The byte-wise order of Go strings is antisymmetric. -/
theorem strings.compare_antisymm (a b : GoString) (hab : strings.le a b = true)
    (hba : strings.le b a = true) : a = b := by
  induction a generalizing b with
  | nil =>
    cases b with
    | nil => rfl
    | cons y t => simp [strings.le] at hba
  | cons x s ih =>
    cases b with
    | nil => simp [strings.le] at hab
    | cons y t =>
      simp only [strings.le] at hab hba
      by_cases hxy : x < y
      · have : ¬ y < x := not_lt.mpr (le_of_lt hxy)
        simp [hxy, this] at hba
      · by_cases hyx : y < x
        · simp [hxy, hyx] at hab
        · have : x = y := le_antisymm (not_lt.mp hyx) (not_lt.mp hxy)
          subst this
          simp only [lt_self_iff_false, if_false] at hab hba
          rw [ih t hab hba]

/-- An entry after `m[key] = value` holds `value` or was an entry before. -/
theorem AuthMap.value_of_mem_assign (m : AuthMap) (key : GoString) (value : ConfigAuth)
    (e : GoString × ConfigAuth) (h : e ∈ AuthMap.assign m key value) :
    e.2 = value ∨ e ∈ m := by
  induction m with
  | nil =>
    simp only [AuthMap.assign, List.mem_singleton] at h
    exact Or.inl (by rw [h])
  | cons kv t ih =>
    obtain ⟨k0, v0⟩ := kv
    simp only [AuthMap.assign] at h
    by_cases hk : k0 = key
    · simp only [hk, if_true, List.mem_cons] at h
      rcases h with h | h
      · exact Or.inl (by rw [h])
      · exact Or.inr (List.mem_cons_of_mem _ h)
    · simp only [hk, if_false, List.mem_cons] at h
      rcases h with h | h
      · exact Or.inr (by rw [h]; exact List.mem_cons_self _ _)
      · rcases ih h with h1 | h1
        · exact Or.inl h1
        · exact Or.inr (List.mem_cons_of_mem _ h1)

/-- An entry after the loop of `RegistryConfig.Mount` holds the auth value of the token
or was an entry before. -/
theorem fill_values (registries : List GoString) (token : oauth2.Token) (auths : AuthMap)
    (e : GoString × ConfigAuth)
    (h : e ∈ RegistryConfig.Mount.fill registries token auths) :
    e.2 = { Auth := RegistryConfig.Mount.auth token } ∨ e ∈ auths := by
  induction registries generalizing auths with
  | nil => exact Or.inr (by simpa [RegistryConfig.Mount.fill] using h)
  | cons r t ih =>
    simp only [RegistryConfig.Mount.fill, List.foldl_cons] at ih h
    rcases ih _ h with h1 | h1
    · exact Or.inl h1
    · exact AuthMap.value_of_mem_assign auths r _ e h1

/-- A map whose entries all hold the same value is determined by its keys. -/
theorem map_keys_of_constant_values (m : AuthMap) (value : ConfigAuth)
    (h : ∀ e ∈ m, e.2 = value) : m = (AuthMap.keys m).map (fun k => (k, value)) := by
  induction m with
  | nil => rfl
  | cons kv t ih =>
    obtain ⟨k0, v0⟩ := kv
    have h0 : v0 = value := h (k0, v0) (List.mem_cons_self _ _)
    subst h0
    have ht := ih (fun e he => h e (List.mem_cons_of_mem _ he))
    simp only [AuthMap.keys, List.map_cons, List.map_map] at ht ⊢
    rw [← ht]

/-- The map encoder does not depend on the order of the entries of a map with distinct
keys. -/
theorem encodeMap_congr_perm (l1 l2 : List (GoString × GoString)) (hperm : l1.Perm l2)
    (hkeys : ∀ a ∈ l1, ∀ b ∈ l1, a.1 = b.1 → a = b) :
    json.encodeMap l1 = json.encodeMap l2 := by
  haveI : IsTotal (GoString × GoString) (fun x y => strings.le x.1 y.1 = true) :=
    ⟨fun a b => strings.compare_total a.1 b.1⟩
  haveI : IsTrans (GoString × GoString) (fun x y => strings.le x.1 y.1 = true) :=
    ⟨fun a b c => strings.compare_trans a.1 b.1 c.1⟩
  have hs : l1.insertionSort (fun x y => strings.le x.1 y.1 = true)
      = l2.insertionSort (fun x y => strings.le x.1 y.1 = true) := by
    apply List.Perm.eq_of_sorted
    · intro a b ha hb hab hba
      have ha1 : a ∈ l1 := (List.perm_insertionSort _ l1).subset ha
      have hb1 : b ∈ l1 := hperm.symm.subset ((List.perm_insertionSort _ l2).subset hb)
      exact hkeys a ha1 b hb1 (strings.compare_antisymm _ _ hab hba)
    · exact List.sorted_insertionSort _ l1
    · exact List.sorted_insertionSort _ l2
    · exact ((List.perm_insertionSort _ l1).trans hperm).trans
        (List.perm_insertionSort _ l2).symm
  unfold json.encodeMap
  rw [hs]

/-- The serialisation of the document depends only on the set of registries and on the
access-token value. -/
theorem encodeConfig_fill_congr (rs1 rs2 : List GoString) (token1 token2 : oauth2.Token)
    (hset : ∀ host, host ∈ rs1 ↔ host ∈ rs2)
    (htoken : token1.AccessToken = token2.AccessToken) :
    json.encodeConfig { Auths := some (RegistryConfig.Mount.fill rs1 token1 []) }
      = json.encodeConfig { Auths := some (RegistryConfig.Mount.fill rs2 token2 []) } := by
  have hauth : RegistryConfig.Mount.auth token1 = RegistryConfig.Mount.auth token2 := by
    simp only [RegistryConfig.Mount.auth, htoken]
  have hv1 : ∀ e ∈ RegistryConfig.Mount.fill rs1 token1 [],
      e.2 = { Auth := RegistryConfig.Mount.auth token1 } := by
    intro e he
    rcases fill_values rs1 token1 [] e he with h | h
    · exact h
    · cases h
  have hv2 : ∀ e ∈ RegistryConfig.Mount.fill rs2 token2 [],
      e.2 = { Auth := RegistryConfig.Mount.auth token1 } := by
    intro e he
    rcases fill_values rs2 token2 [] e he with h | h
    · rw [h, hauth]
    · cases h
  have hk : (AuthMap.keys (RegistryConfig.Mount.fill rs1 token1 [])).Perm
      (AuthMap.keys (RegistryConfig.Mount.fill rs2 token2 [])) := by
    rw [List.perm_ext_iff_of_nodup (fill_nodup _ _ _ (by simp [AuthMap.keys]))
      (fill_nodup _ _ _ (by simp [AuthMap.keys]))]
    intro host
    rw [fill_keys, fill_keys, hset]
  have e1 := map_keys_of_constant_values _ _ hv1
  have e2 := map_keys_of_constant_values _ _ hv2
  simp only [json.encodeConfig]
  congr 2
  rw [e1, e2]
  apply encodeMap_congr_perm
  · exact ((hk.map _).map _)
  · intro a ha b hb hab
    simp only [List.map_map, List.mem_map, Function.comp] at ha hb
    obtain ⟨ka, _, rfl⟩ := ha
    obtain ⟨kb, _, rfl⟩ := hb
    simp only at hab
    rw [hab]

/-! ### The registry auth document (`RegistryConfig.Mount`, `Config.toSecret`) -/

/-- The serialisation of the document with an allocated, empty `auths` map. -/
theorem encodeConfig_empty :
    json.encodeConfig { Auths := some [] } = lit "\x7b\"auths\":\x7b\x7d\x7d" := by
  decide

/-- C5: with no registries, `RegistryConfig.Mount` builds the document whose `auths` map
is allocated and empty, which serialises as `{"auths":{}}` (the nil map would give
`{"auths":null}`), and returns without error the container with that text mounted as a
secret named by its digest. This holds in every world and for every credentials of the
`Gcp`: the result mentions no collaborator but the digest function. -/
theorem Mount_without_registries (w : World) (m : RegistryConfig) (ctr : Container)
    (h : m.Gcp.Registries = []) :
    RegistryConfig.Mount.config w m = .ok { Auths := some [] }
    ∧ json.MarshalConfig { Auths := some [] } = .ok (lit "\x7b\"auths\":\x7b\x7d\x7d")
    ∧ json.MarshalConfig { Auths := none } = .ok (lit "\x7b\"auths\":null\x7d")
    ∧ Config.toSecret w { Auths := some [] }
        = .ok (dag.SetSecret
            (lit "_gcp_registry_config_"
              ++ fmtHex (w.sha1Sum (lit "\x7b\"auths\":\x7b\x7d\x7d")))
            (lit "\x7b\"auths\":\x7b\x7d\x7d"))
    ∧ RegistryConfig.Mount w m ctr
        = .ok (ctr.WithMountedSecret m.Path
            (dag.SetSecret
              (lit "_gcp_registry_config_"
                ++ fmtHex (w.sha1Sum (lit "\x7b\"auths\":\x7b\x7d\x7d")))
              (lit "\x7b\"auths\":\x7b\x7d\x7d"))
            [{ Owner := m.Owner, Mode := m.Mode }]) := by
  have hc : RegistryConfig.Mount.config w m = .ok { Auths := some [] } := by
    simp [RegistryConfig.Mount.config, h]
  have hs : Config.toSecret w { Auths := some [] }
      = .ok (dag.SetSecret
          (lit "_gcp_registry_config_"
            ++ fmtHex (w.sha1Sum (lit "\x7b\"auths\":\x7b\x7d\x7d")))
          (lit "\x7b\"auths\":\x7b\x7d\x7d")) := by
    simp only [Config.toSecret, json.MarshalConfig, sha1.Write, sha1.Sum, encodeConfig_empty,
      List.nil_append]
  refine ⟨hc, ?_, ?_, hs, ?_⟩
  · rw [json.MarshalConfig, encodeConfig_empty]
  · decide
  · simp only [RegistryConfig.Mount, hc, hs]

/-- C5, at a concrete input: a `Gcp` without registries and without any credentials, in
a world in which no token source can be built. -/
theorem Mount_without_registries_witness :
    RegistryConfig.Mount noTokenSourceWorld ⟨lit "/cfg", [], 0, ⟨none, [], none, []⟩⟩ ⟨0, []⟩
      = .ok ((⟨0, []⟩ : Container).WithMountedSecret (lit "/cfg")
          (dag.SetSecret
            (lit "_gcp_registry_config_"
              ++ fmtHex (noTokenSourceWorld.sha1Sum (lit "\x7b\"auths\":\x7b\x7d\x7d")))
            (lit "\x7b\"auths\":\x7b\x7d\x7d"))
          [{ Owner := [], Mode := 0 }]) :=
  (Mount_without_registries noTokenSourceWorld ⟨lit "/cfg", [], 0, ⟨none, [], none, []⟩⟩
    ⟨0, []⟩ rfl).2.2.2.2

/-- The method `Config.toSecret` never fails: it returns the secret holding the
serialisation of the document, named by the lower-case hexadecimal digest of that
serialisation. -/
theorem toSecret_eq (w : World) (c : Config) :
    c.toSecret w
      = .ok (dag.SetSecret
          (lit "_gcp_registry_config_" ++ fmtHex (w.sha1Sum (json.encodeConfig c)))
          (json.encodeConfig c)) := by
  simp only [Config.toSecret, json.MarshalConfig, sha1.Write, sha1.Sum, List.nil_append]

/-- The text that `RegistryConfig.Mount` encodes is `oauth2accesstoken:` followed by the
access token. -/
theorem auth_eq (token : oauth2.Token) :
    RegistryConfig.Mount.auth token
      = base64.EncodeToString (lit "oauth2accesstoken:" ++ token.AccessToken) := by
  have h : lit "oauth2accesstoken" ++ [0x3A] = lit "oauth2accesstoken:" := by decide
  rw [RegistryConfig.Mount.auth, h]

/-- C4: with a non-empty list of registries and the token `token` obtained from the
token source, the document that `RegistryConfig.Mount` builds and mounts has as keys
exactly the hosts of the list, each once; every host of the list maps to the standard
padded base64 encoding of `oauth2accesstoken:` followed by the access token; and the
`auth` of every entry of the document decodes to `oauth2accesstoken:` followed by the
access token. -/
theorem Mount_document_entries (w : World) (m : RegistryConfig) (ts : oauth2.TokenSource)
    (token : oauth2.Token) (hne : m.Gcp.Registries ≠ [])
    (hts : auth.NewTokenSource w m.Gcp.CredentialsJson m.Gcp.WorkloadIdentityProvider
      m.Gcp.WorkloadIdentityToken = .ok ts)
    (htoken : ts.Token = .ok token) :
    ∃ auths : AuthMap,
      RegistryConfig.Mount.config w m = .ok { Auths := some auths }
      ∧ (∀ ctr, RegistryConfig.Mount w m ctr
          = .ok (ctr.WithMountedSecret m.Path
              (dag.SetSecret
                (lit "_gcp_registry_config_"
                  ++ fmtHex (w.sha1Sum (json.encodeConfig { Auths := some auths })))
                (json.encodeConfig { Auths := some auths }))
              [{ Owner := m.Owner, Mode := m.Mode }]))
      ∧ (∀ host, host ∈ AuthMap.keys auths ↔ host ∈ m.Gcp.Registries)
      ∧ (AuthMap.keys auths).Nodup
      ∧ (∀ host, host ∈ m.Gcp.Registries →
          AuthMap.lookup auths host
            = some ⟨base64.EncodeToString (lit "oauth2accesstoken:" ++ token.AccessToken)⟩)
      ∧ (∀ host entry, AuthMap.lookup auths host = some entry →
          entry.Auth = base64.EncodeToString (lit "oauth2accesstoken:" ++ token.AccessToken)
          ∧ base64.DecodeString entry.Auth
            = some (lit "oauth2accesstoken:" ++ token.AccessToken)) := by
  have hlen : m.Gcp.Registries.length ≠ 0 := by
    intro h
    exact hne (List.length_eq_zero.mp h)
  have hc : RegistryConfig.Mount.config w m
      = .ok { Auths := some (RegistryConfig.Mount.fill m.Gcp.Registries token []) } := by
    simp only [RegistryConfig.Mount.config, hlen, ne_eq, not_false_eq_true, if_true, hts,
      htoken]
  have hlookup : ∀ host, AuthMap.lookup (RegistryConfig.Mount.fill m.Gcp.Registries token [])
      host = if host ∈ m.Gcp.Registries then
          some ⟨base64.EncodeToString (lit "oauth2accesstoken:" ++ token.AccessToken)⟩
        else none := by
    intro host
    rw [fill_lookup, auth_eq]
    rfl
  refine ⟨_, hc, ?_, ?_, ?_, ?_, ?_⟩
  · intro ctr
    simp only [RegistryConfig.Mount, hc, toSecret_eq]
  · intro host
    rw [fill_keys]
    simp [AuthMap.keys]
  · exact fill_nodup _ _ _ (by simp [AuthMap.keys])
  · intro host hmem
    rw [hlookup, if_pos hmem]
  · intro host entry hentry
    rw [hlookup] at hentry
    split at hentry
    · injection hentry with hentry
      subst hentry
      exact ⟨rfl, base64.DecodeString_EncodeToString _⟩
    · cases hentry

/-- C4, at a concrete input: one registry and the token `TOKEN` of `sampleWorld`. -/
theorem Mount_document_entries_witness :
    ∃ auths : AuthMap,
      RegistryConfig.Mount.config sampleWorld
          ⟨lit "/cfg", [], 0, staticGcp [lit "us-docker.pkg.dev"]⟩
        = .ok { Auths := some auths }
      ∧ (∀ host, host ∈ AuthMap.keys auths ↔ host ∈ [lit "us-docker.pkg.dev"])
      ∧ (∀ host entry, AuthMap.lookup auths host = some entry →
          base64.DecodeString entry.Auth = some (lit "oauth2accesstoken:TOKEN")) := by
  obtain ⟨auths, h1, _, h3, _, _, h6⟩ :=
    Mount_document_entries sampleWorld
      ⟨lit "/cfg", [], 0, staticGcp [lit "us-docker.pkg.dev"]⟩
      { Token := .ok (sampleToken (lit "TOKEN")) } (sampleToken (lit "TOKEN"))
      (by decide) rfl rfl
  exact ⟨auths, h1, h3, fun host entry h => (h6 host entry h).2⟩

/-- C6: for two registry lists with the same set of hosts (in any order, with any
repetition) and two tokens with the same access-token value, the documents built by the
loop of `RegistryConfig.Mount` have the same serialisation, and `Config.toSecret`
returns the same secret for both: its content is that serialisation and its name is
`_gcp_registry_config_` followed by the lower-case hexadecimal SHA-1 digest of it. -/
theorem toSecret_deterministic_in_registry_set (w : World) (rs1 rs2 : List GoString)
    (token1 token2 : oauth2.Token) (hset : ∀ host, host ∈ rs1 ↔ host ∈ rs2)
    (htoken : token1.AccessToken = token2.AccessToken) :
    json.MarshalConfig { Auths := some (RegistryConfig.Mount.fill rs1 token1 []) }
      = json.MarshalConfig { Auths := some (RegistryConfig.Mount.fill rs2 token2 []) }
    ∧ Config.toSecret w { Auths := some (RegistryConfig.Mount.fill rs1 token1 []) }
      = Config.toSecret w { Auths := some (RegistryConfig.Mount.fill rs2 token2 []) }
    ∧ Config.toSecret w { Auths := some (RegistryConfig.Mount.fill rs1 token1 []) }
      = .ok (dag.SetSecret
          (lit "_gcp_registry_config_" ++ fmtHex (w.sha1Sum
            (json.encodeConfig { Auths := some (RegistryConfig.Mount.fill rs1 token1 []) })))
          (json.encodeConfig { Auths := some (RegistryConfig.Mount.fill rs1 token1 []) })) := by
  have h := encodeConfig_fill_congr rs1 rs2 token1 token2 hset htoken
  refine ⟨?_, ?_, toSecret_eq w _⟩
  · simp only [json.MarshalConfig, h]
  · rw [toSecret_eq, toSecret_eq, h]

/-- C6, at a concrete input: two hosts listed in opposite orders, one of them twice. -/
theorem toSecret_deterministic_in_registry_set_witness :
    Config.toSecret sampleWorld
        { Auths := some (RegistryConfig.Mount.fill [lit "gcr.io", lit "eu.gcr.io"]
            (sampleToken (lit "TOKEN")) []) }
      = Config.toSecret sampleWorld
        { Auths := some (RegistryConfig.Mount.fill
            [lit "eu.gcr.io", lit "gcr.io", lit "eu.gcr.io"]
            (sampleToken (lit "TOKEN")) []) } :=
  (toSecret_deterministic_in_registry_set sampleWorld [lit "gcr.io", lit "eu.gcr.io"]
    [lit "eu.gcr.io", lit "gcr.io", lit "eu.gcr.io"] (sampleToken (lit "TOKEN"))
    (sampleToken (lit "TOKEN"))
    (by
      intro host
      simp only [List.mem_cons, List.mem_singleton, List.not_mem_nil, or_false]
      tauto)
    rfl).2.1

/-- The end-to-end scenario of one registry: with a static key, the registry
`us-docker.pkg.dev` and the token `TOKEN`, the mounted secret holds the document
`{"auths":{"us-docker.pkg.dev":{"auth":"b2F1dGgyYWNjZXNzdG9rZW46VE9LRU4="}}}`. -/
theorem Mount_one_registry_example :
    RegistryConfig.Mount sampleWorld
        ⟨lit "/root/.docker/config.json", [], 0, staticGcp [lit "us-docker.pkg.dev"]⟩ ⟨0, []⟩
      = .ok ⟨0, [.WithMountedSecret (lit "/root/.docker/config.json")
          (dag.SetSecret (lit "_gcp_registry_config_")
            (lit ("\x7b\"auths\":\x7b\"us-docker.pkg.dev\":"
              ++ "\x7b\"auth\":\"b2F1dGgyYWNjZXNzdG9rZW46VE9LRU4=\"\x7d\x7d\x7d")))
          [{ Owner := [], Mode := 0 }]]⟩ := by
  decide

/-! ### The external account descriptor (`ExternalAccountCredentialsJson`) -/

/-- What `DecodeRuneInString` returns on a string that starts with a non-ASCII byte:
either the invalid-encoding result, or a rune whose width is the length of a prefix of
two to four bytes, all of them non-ASCII; when the rune is U+2028 or U+2029 the prefix
is its UTF-8 encoding. -/
theorem utf8.DecodeRuneInString_cases (b : Byte) (t : GoString) (hb : 0x80 ≤ b.val) :
    utf8.DecodeRuneInString (b :: t) = (utf8.RuneError, 1)
    ∨ ∃ pre rest r, b :: t = pre ++ rest
        ∧ utf8.DecodeRuneInString (b :: t) = (r, pre.length)
        ∧ 2 ≤ pre.length
        ∧ (∀ c ∈ pre, 0x80 ≤ c.val)
        ∧ ((r = 0x2028 ∨ r = 0x2029) → utf8.EncodeRune r = pre) := by
  have hb' : ¬ b.val < 0x80 := by omega
  have hbl := b.isLt
  by_cases h1 : b.val < 0xC2
  · exact Or.inl (by simp only [utf8.DecodeRuneInString, hb', h1, if_false, if_true])
  by_cases h2 : b.val < 0xE0
  · cases t with
    | nil => exact Or.inl (by simp only [utf8.DecodeRuneInString, hb', h1, h2, if_false, if_true])
    | cons s1 u =>
      by_cases c1 : s1.val < 0x80 ∨ 0xBF < s1.val
      · exact Or.inl (by
          simp only [utf8.DecodeRuneInString, hb', h1, h2, c1, if_false, if_true])
      · refine Or.inr ⟨[b, s1], u, (b.val % 32) * 64 + s1.val % 64, rfl, ?_, by simp, ?_, ?_⟩
        · simp only [utf8.DecodeRuneInString, hb', h1, h2, c1, if_false, if_true]
          rfl
        · intro c hc
          simp only [List.mem_cons, List.mem_singleton, List.not_mem_nil, or_false] at hc
          rcases hc with rfl | rfl <;> omega
        · intro hr
          have := s1.isLt
          omega
  by_cases h3 : b.val < 0xF0
  · match t with
    | [] => exact Or.inl (by simp only [utf8.DecodeRuneInString, hb', h1, h2, h3, if_false, if_true])
    | [_] => exact Or.inl (by simp only [utf8.DecodeRuneInString, hb', h1, h2, h3, if_false, if_true])
    | s1 :: s2 :: u =>
      by_cases c1 : s1.val < (if b.val = 0xE0 then 0xA0 else 0x80) ∨
            (if b.val = 0xED then 0x9F else 0xBF) < s1.val
      · exact Or.inl (by
          simp only [utf8.DecodeRuneInString, hb', h1, h2, h3, c1, if_false, if_true])
      by_cases c2 : s2.val < 0x80 ∨ 0xBF < s2.val
      · exact Or.inl (by
          simp only [utf8.DecodeRuneInString, hb', h1, h2, h3, c1, c2, if_false, if_true])
      have hs1 : 0x80 ≤ s1.val ∧ s1.val ≤ 0xBF := by
        split_ifs at c1 <;> omega
      refine Or.inr ⟨[b, s1, s2], u,
        (b.val % 16) * 4096 + (s1.val % 64) * 64 + s2.val % 64, rfl, ?_, by simp, ?_, ?_⟩
      · simp only [utf8.DecodeRuneInString, hb', h1, h2, h3, c1, c2, if_false, if_true]
        rfl
      · intro c hc
        simp only [List.mem_cons, List.mem_singleton, List.not_mem_nil, or_false] at hc
        rcases hc with rfl | rfl | rfl <;> omega
      · intro hr
        have h2l := s2.isLt
        have hbv : b = 0xE2 := by
          apply Fin.ext
          show b.val = 0xE2
          omega
        have hs1v : s1 = 0x80 := by
          apply Fin.ext
          show s1.val = 0x80
          omega
        rcases hr with hr | hr
        · have hs2v : s2 = 0xA8 := by
            apply Fin.ext
            show s2.val = 0xA8
            omega
          rw [hr, hbv, hs1v, hs2v]
          decide
        · have hs2v : s2 = 0xA9 := by
            apply Fin.ext
            show s2.val = 0xA9
            omega
          rw [hr, hbv, hs1v, hs2v]
          decide
  by_cases h4 : b.val < 0xF5
  · match t with
    | [] => exact Or.inl (by simp only [utf8.DecodeRuneInString, hb', h1, h2, h3, h4, if_false, if_true])
    | [_] => exact Or.inl (by simp only [utf8.DecodeRuneInString, hb', h1, h2, h3, h4, if_false, if_true])
    | [_, _] => exact Or.inl (by simp only [utf8.DecodeRuneInString, hb', h1, h2, h3, h4, if_false, if_true])
    | s1 :: s2 :: s3 :: u =>
      by_cases c1 : s1.val < (if b.val = 0xF0 then 0x90 else 0x80) ∨
            (if b.val = 0xF4 then 0x8F else 0xBF) < s1.val
      · exact Or.inl (by
          simp only [utf8.DecodeRuneInString, hb', h1, h2, h3, h4, c1, if_false, if_true])
      by_cases c2 : s2.val < 0x80 ∨ 0xBF < s2.val
      · exact Or.inl (by
          simp only [utf8.DecodeRuneInString, hb', h1, h2, h3, h4, c1, c2, if_false, if_true])
      by_cases c3 : s3.val < 0x80 ∨ 0xBF < s3.val
      · exact Or.inl (by
          simp only [utf8.DecodeRuneInString, hb', h1, h2, h3, h4, c1, c2, c3, if_false,
            if_true])
      have hs1 : 0x80 ≤ s1.val ∧ s1.val ≤ 0xBF
          ∧ (b.val = 0xF0 → 0x90 ≤ s1.val) := by
        split_ifs at c1 <;> omega
      refine Or.inr ⟨[b, s1, s2, s3], u,
        (b.val % 8) * 262144 + (s1.val % 64) * 4096 + (s2.val % 64) * 64 + s3.val % 64, rfl, ?_, by simp, ?_, ?_⟩
      · simp only [utf8.DecodeRuneInString, hb', h1, h2, h3, h4, c1, c2, c3, if_false, if_true]
        rfl
      · intro c hc
        simp only [List.mem_cons, List.mem_singleton, List.not_mem_nil, or_false] at hc
        rcases hc with rfl | rfl | rfl | rfl <;> omega
      · intro hr
        exfalso
        omega
  · exact Or.inl (by
      simp only [utf8.DecodeRuneInString, hb', h1, h2, h3, h4, if_false, if_true])

/-- The digit table is inverted by `hexValue`, checked on all 16 values. -/
theorem json.hexValue_hexDigit_fin :
    ∀ n : Fin 16, json.hexValue (hexDigit n.val) = some n.val := by
  decide

/-- The value of the hexadecimal digit written for a number below 16. -/
theorem json.hexValue_hexDigit (n : Nat) (h : n < 16) :
    json.hexValue (hexDigit n) = some n :=
  json.hexValue_hexDigit_fin ⟨n, h⟩

/-- Reading a byte that is neither a quote, a backslash nor a control character. -/
theorem json.readString_plain (c : Byte) (x : GoString) (h1 : c.val ≠ 0x22)
    (h2 : c.val ≠ 0x5C) (h3 : ¬ c.val < 0x20) :
    json.readString (c :: x) = (json.readString x).map (fun r => (c :: r.1, r.2)) := by
  rw [json.readString.eq_def]
  simp only [h1, h2, h3, if_false]

/-- Reading a one-letter escape. -/
theorem json.readString_letter (e b : Byte) (x : GoString) (h1 : e.val ≠ 0x75)
    (h2 : json.unescapeLetter e = some b) :
    json.readString (0x5C :: e :: x) = (json.readString x).map (fun r => (b :: r.1, r.2)) := by
  rw [json.readString.eq_def]
  simp only [show ((0x5C : Byte).val = 0x22) = False from by decide,
    show ((0x5C : Byte).val = 0x5C) = True from by decide, if_false, if_true, h1, h2]

/-- Reading a `\uXXXX` escape that is not a surrogate. -/
theorem json.readString_unicode (h1 h2 h3 h4 : Byte) (a b c d : Nat) (x : GoString)
    (e1 : json.hexValue h1 = some a) (e2 : json.hexValue h2 = some b)
    (e3 : json.hexValue h3 = some c) (e4 : json.hexValue h4 = some d)
    (hs : ¬ (0xD800 ≤ a * 4096 + b * 256 + c * 16 + d
      ∧ a * 4096 + b * 256 + c * 16 + d < 0xE000)) :
    json.readString (0x5C :: 0x75 :: h1 :: h2 :: h3 :: h4 :: x)
      = (json.readString x).map
          (fun r => (utf8.EncodeRune (a * 4096 + b * 256 + c * 16 + d) ++ r.1, r.2)) := by
  rw [json.readString.eq_def]
  simp only [show ((0x5C : Byte).val = 0x22) = False from by decide,
    show ((0x5C : Byte).val = 0x5C) = True from by decide,
    show ((0x75 : Byte).val = 0x75) = True from by decide, if_false, if_true, e1, e2, e3, e4,
    hs]

/-- Reading a run of non-ASCII bytes copies it. -/
theorem json.readString_high (pre x : GoString) (h : ∀ c ∈ pre, 0x80 ≤ c.val) :
    json.readString (pre ++ x) = (json.readString x).map (fun r => (pre ++ r.1, r.2)) := by
  induction pre with
  | nil =>
    simp only [List.nil_append]
    cases json.readString x <;> rfl
  | cons c t ih =>
    have hc := h c (List.mem_cons_self _ _)
    rw [List.cons_append, json.readString_plain c _ (by omega) (by omega) (by omega),
      ih (fun d hd => h d (List.mem_cons_of_mem _ hd))]
    cases json.readString x <;> rfl

/-- Reading what `appendString` writes for one ASCII byte gives the byte back. -/
theorem json.readString_ascii (b : Byte) (x : GoString) (hb : b.val < 0x80) :
    json.readString ((if json.htmlSafeSet b then [b] else json.escapeByte b) ++ x)
      = (json.readString x).map (fun r => (b :: r.1, r.2)) := by
  by_cases hs : json.htmlSafeSet b = true
  · simp only [hs, if_true, List.singleton_append]
    simp only [json.htmlSafeSet, Bool.and_eq_true, decide_eq_true_eq, bne_iff_ne, ne_eq] at hs
    exact json.readString_plain b x (by omega) (by omega) (by omega)
  · simp only [hs, Bool.false_eq_true, if_false]
    unfold json.escapeByte
    by_cases e1 : b.val = 0x5C ∨ b.val = 0x22
    · simp only [e1, if_true, List.cons_append, List.nil_append]
      rcases e1 with e1 | e1
      · have hb : b = 0x5C := Fin.ext e1
        subst hb
        exact json.readString_letter _ _ x (by decide) (by decide)
      · have hb : b = 0x22 := Fin.ext e1
        subst hb
        exact json.readString_letter _ _ x (by decide) (by decide)
    simp only [e1, if_false]
    by_cases e2 : b.val = 0x08
    · have hb : b = 0x08 := Fin.ext e2
      subst hb
      exact json.readString_letter _ _ x (by decide) (by decide)
    simp only [e2, if_false]
    by_cases e3 : b.val = 0x0C
    · have hb : b = 0x0C := Fin.ext e3
      subst hb
      exact json.readString_letter _ _ x (by decide) (by decide)
    simp only [e3, if_false]
    by_cases e4 : b.val = 0x0A
    · have hb : b = 0x0A := Fin.ext e4
      subst hb
      exact json.readString_letter _ _ x (by decide) (by decide)
    simp only [e4, if_false]
    by_cases e5 : b.val = 0x0D
    · have hb : b = 0x0D := Fin.ext e5
      subst hb
      exact json.readString_letter _ _ x (by decide) (by decide)
    simp only [e5, if_false]
    by_cases e6 : b.val = 0x09
    · have hb : b = 0x09 := Fin.ext e6
      subst hb
      exact json.readString_letter _ _ x (by decide) (by decide)
    simp only [e6, if_false, List.cons_append, List.nil_append]
    have hx1 := json.hexValue_hexDigit (b.val / 16) (by omega)
    have hx2 := json.hexValue_hexDigit (b.val % 16) (by omega)
    have h0 : json.hexValue (0x30 : Byte) = some 0 := by decide
    rw [json.readString_unicode _ _ _ _ 0 0 (b.val / 16) (b.val % 16) x h0 h0 hx1 hx2
      (by omega)]
    have hr : 0 * 4096 + 0 * 256 + b.val / 16 * 16 + b.val % 16 = b.val := by omega
    rw [hr]
    have henc : utf8.EncodeRune b.val = [b] := by
      simp only [utf8.EncodeRune, hb, if_true, byte_val]
    rw [henc]
    rfl

/-- Reading the closing quote ends the string. -/
theorem json.readString_quote (rest : GoString) :
    json.readString (0x22 :: rest) = some ([], rest) := by
  rw [json.readString.eq_def]
  simp only [show ((0x22 : Byte).val = 0x22) = True from by decide, if_true]

/-- Reading what the loop of `appendString` writes for any Go string, up to the closing
quote, gives the string coerced to valid UTF-8. -/
theorem json.readString_appendString_loop (fuel : Nat) :
    ∀ (s rest : GoString), s.length ≤ fuel →
      json.readString (json.appendString.loop fuel s ++ 0x22 :: rest)
        = some (json.coerce.loop fuel s, rest) := by
  induction fuel with
  | zero =>
    intro s rest hlen
    have hs : s = [] := List.length_eq_zero.mp (Nat.le_zero.mp hlen)
    subst hs
    simp only [json.appendString.loop, json.coerce.loop, List.nil_append,
      json.readString_quote]
  | succ fuel ih =>
    intro s rest hlen
    cases s with
    | nil =>
      simp only [json.appendString.loop, json.coerce.loop, List.nil_append,
        json.readString_quote]
    | cons b t =>
      simp only [List.length_cons] at hlen
      simp only [json.appendString.loop, json.coerce.loop]
      by_cases hb : b.val < 0x80
      · have hd : utf8.DecodeRuneInString (b :: t) = (b.val, 1) := by
          simp only [utf8.DecodeRuneInString, hb, if_true]
        rw [hd]
        have hne : ¬ b.val = utf8.RuneError := by
          simp only [utf8.RuneError]
          omega
        simp only [hb, hne, false_and, if_true, if_false, List.append_assoc,
          List.drop_succ_cons, List.drop_zero, List.take_succ_cons, List.take_zero]
        rw [json.readString_ascii b _ hb, ih t rest (by omega)]
        rfl
      · simp only [hb, if_false]
        rcases utf8.DecodeRuneInString_cases b t (by omega) with
          hd | ⟨pre, u, r, hsplit, hd, hpre, hhigh, henc⟩
        · rw [hd]
          simp only [and_self, if_true, List.cons_append, List.nil_append]
          have hf : json.hexValue (0x66 : Byte) = some 15 := by decide
          have hdd : json.hexValue (0x64 : Byte) = some 13 := by decide
          rw [json.readString_unicode _ _ _ _ 15 15 15 13 _ hf hf hf hdd (by omega),
            ih t rest (by omega)]
          have he : utf8.EncodeRune (15 * 4096 + 15 * 256 + 15 * 16 + 13)
              = [0xEF, 0xBF, 0xBD] := by decide
          rw [he]
          rfl
        · rw [hd]
          have hne : ¬ (r = utf8.RuneError ∧ pre.length = 1) := by
            omega
          simp only [hne, if_false]
          rw [hsplit, List.drop_left, List.take_left]
          have hu : u.length ≤ fuel := by
            have := congrArg List.length hsplit
            simp only [List.length_cons, List.length_append] at this
            omega
          by_cases hr : r = 0x2028 ∨ r = 0x2029
          · simp only [hr, if_true, List.cons_append, List.nil_append]
            have h2 : json.hexValue (0x32 : Byte) = some 2 := by decide
            have h0 : json.hexValue (0x30 : Byte) = some 0 := by decide
            have hx := json.hexValue_hexDigit (r % 16) (Nat.mod_lt _ (by decide))
            rw [json.readString_unicode _ _ _ _ 2 0 2 (r % 16) _ h2 h0 h2 hx (by omega)]
            have hval : 2 * 4096 + 0 * 256 + 2 * 16 + r % 16 = r := by omega
            rw [hval, henc hr, ih u rest hu]
            rfl
          · simp only [hr, if_false, List.append_assoc]
            rw [json.readString_high pre _ hhigh, ih u rest hu]
            rfl

/-- The coercion keeps a valid UTF-8 string as it is. -/
theorem json.coerce_loop_of_valid (fuel : Nat) :
    ∀ (s : GoString), s.length ≤ fuel → utf8.ValidString.loop fuel s = true →
      json.coerce.loop fuel s = s := by
  induction fuel with
  | zero =>
    intro s hlen _
    have hs : s = [] := List.length_eq_zero.mp (Nat.le_zero.mp hlen)
    subst hs
    simp only [json.coerce.loop]
  | succ fuel ih =>
    intro s hlen hvalid
    cases s with
    | nil => simp only [json.coerce.loop]
    | cons b t =>
      simp only [List.length_cons] at hlen
      simp only [utf8.ValidString.loop] at hvalid
      simp only [json.coerce.loop]
      by_cases hinv : (utf8.DecodeRuneInString (b :: t)).1 = utf8.RuneError
          ∧ (utf8.DecodeRuneInString (b :: t)).2 = 1
      · simp [hinv] at hvalid
      · simp only [hinv, if_false] at hvalid ⊢
        have hpos : 1 ≤ (utf8.DecodeRuneInString (b :: t)).2 := by
          by_cases hb : b.val < 0x80
          · simp only [utf8.DecodeRuneInString, hb, if_true, Nat.le_refl]
          · rcases utf8.DecodeRuneInString_cases b t (by omega) with
              hd | ⟨pre, u, r, _, hd, hpre, _, _⟩
            · rw [hd]
            · rw [hd]
              exact Nat.le_trans (by decide) hpre
        have hlen' : ((b :: t).drop (utf8.DecodeRuneInString (b :: t)).2).length ≤ fuel := by
          rw [List.length_drop, List.length_cons]
          omega
        rw [ih _ hlen' hvalid, List.take_append_drop]

/-- The coercion keeps a valid UTF-8 string as it is. -/
theorem json.coerce_of_valid (s : GoString) (h : utf8.ValidString s = true) :
    json.coerce s = s :=
  json.coerce_loop_of_valid s.length s (Nat.le_refl _) h

/-- Reading the body of the JSON string literal of any Go string gives the string
coerced to valid UTF-8. -/
theorem json.readString_appendString_coerce (s rest : GoString) :
    json.readString (json.appendString.loop s.length s ++ 0x22 :: rest)
      = some (json.coerce s, rest) :=
  json.readString_appendString_loop s.length s rest (Nat.le_refl _)

/-- Reading the body of the JSON string literal of a valid UTF-8 string gives the string
back. -/
theorem json.readString_appendString (s rest : GoString) (h : utf8.ValidString s = true) :
    json.readString (json.appendString.loop s.length s ++ 0x22 :: rest) = some (s, rest) := by
  rw [json.readString_appendString_coerce, json.coerce_of_valid s h]

/-- A value that starts with a quote is read as a string. -/
theorem json.readValue_quote (fuel : Nat) (x : GoString) :
    json.readValue (fuel + 1) (0x22 :: x)
      = (json.readString x).map (fun r => (GoAny.string r.1, r.2)) := by
  cases x with
  | nil =>
    rw [json.readValue.eq_3]
    simp only [show ((0x22 : Byte).val = 0x22) = True from by decide, if_true]
  | cons e u =>
    rw [json.readValue.eq_4]
    simp only [show ((0x22 : Byte).val = 0x22) = True from by decide, if_true]

/-- A value that starts with a brace and a quote is read as a non-empty object. -/
theorem json.readValue_brace (fuel : Nat) (x : GoString) :
    json.readValue (fuel + 1) (0x7B :: 0x22 :: x)
      = (json.readMembers fuel (0x22 :: x)).map (fun r => (GoAny.map r.1, r.2)) := by
  rw [json.readValue.eq_4]
  simp only [show ((0x7B : Byte).val = 0x22) = False from by decide,
    show ((0x7B : Byte).val = 0x7B) = True from by decide,
    show ((0x22 : Byte).val = 0x7D) = False from by decide, if_true, if_false]

/-- The JSON string literal of any Go string is read as that string coerced to valid
UTF-8. -/
theorem json.readsAs_string_coerce (s : GoString) :
    json.ReadsAs 1 (json.appendString s) (.string (json.coerce s)) := by
  intro fuel rest hfuel
  obtain ⟨n, rfl⟩ : ∃ n, fuel = n + 1 := ⟨fuel - 1, by omega⟩
  simp only [json.appendString, List.cons_append, List.nil_append, List.append_assoc]
  rw [json.readValue_quote, json.readString_appendString_coerce s rest]
  rfl

/-- The JSON string literal of a valid UTF-8 string is read as that string. -/
theorem json.readsAs_string (s : GoString) (h : utf8.ValidString s = true) :
    json.ReadsAs 1 (json.appendString s) (.string s) := by
  have hc := json.readsAs_string_coerce s
  rw [json.coerce_of_valid s h] at hc
  exact hc

/-- Reading the last member of an object. -/
theorem json.readMembers_last (fuel k : Nat) (key text rest : GoString) (v : GoAny)
    (hkey : utf8.ValidString key = true) (hv : json.ReadsAs k text v) (hk : k ≤ fuel) :
    json.readMembers (fuel + 1) (json.appendString key ++ [0x3A] ++ text ++ 0x7D :: rest)
      = some ([(key, v)], rest) := by
  simp only [json.appendString, List.cons_append, List.nil_append, List.append_assoc]
  rw [json.readMembers.eq_3]
  simp only [show ((0x22 : Byte).val = 0x22) = True from by decide, if_true]
  rw [json.readString_appendString key _ hkey]
  simp only [show ((0x3A : Byte).val = 0x3A) = True from by decide, if_true]
  rw [hv fuel _ hk]
  simp only [show ((0x7D : Byte).val = 0x2C) = False from by decide,
    show ((0x7D : Byte).val = 0x7D) = True from by decide, if_true, if_false]

/-- Reading a member that is followed by a comma. -/
theorem json.readMembers_more (fuel k : Nat) (key text more : GoString) (v : GoAny)
    (hkey : utf8.ValidString key = true) (hv : json.ReadsAs k text v) (hk : k ≤ fuel) :
    json.readMembers (fuel + 1) (json.appendString key ++ [0x3A] ++ text ++ [0x2C] ++ more)
      = (json.readMembers fuel more).map (fun r => ((key, v) :: r.1, r.2)) := by
  simp only [json.appendString, List.cons_append, List.nil_append, List.append_assoc]
  rw [json.readMembers.eq_3]
  simp only [show ((0x22 : Byte).val = 0x22) = True from by decide, if_true]
  rw [json.readString_appendString key _ hkey]
  simp only [show ((0x3A : Byte).val = 0x3A) = True from by decide, if_true]
  rw [hv fuel _ hk]
  simp only [show ((0x2C : Byte).val = 0x2C) = True from by decide, if_true]

/-- Reading the members that the map encoder writes: each entry is a key, the text
written for its value, and the value that text is read as. -/
theorem json.readMembers_joinComma (k : Nat) :
    ∀ (ms : List (GoString × GoString × GoAny)), ms ≠ [] →
      (∀ t ∈ ms, utf8.ValidString t.1 = true ∧ json.ReadsAs k t.2.1 t.2.2) →
      ∀ (fuel : Nat) (rest : GoString), k + ms.length ≤ fuel →
        json.readMembers fuel
            (json.joinComma (ms.map (fun t => json.appendString t.1 ++ [0x3A] ++ t.2.1))
              ++ 0x7D :: rest)
          = some (ms.map (fun t => (t.1, t.2.2)), rest) := by
  intro ms
  induction ms with
  | nil => intro h; exact absurd rfl h
  | cons m t ih =>
    intro _ hall fuel rest hfuel
    obtain ⟨hkey, hv⟩ := hall m (List.mem_cons_self _ _)
    simp only [List.length_cons] at hfuel
    obtain ⟨n, rfl⟩ : ∃ n, fuel = n + 1 := ⟨fuel - 1, by omega⟩
    cases t with
    | nil =>
      simp only [List.map_cons, List.map_nil, json.joinComma]
      exact json.readMembers_last n k m.1 m.2.1 rest m.2.2 hkey hv (by omega)
    | cons m2 t2 =>
      have hrec := ih (by simp) (fun x hx => hall x (List.mem_cons_of_mem _ hx)) n rest
        (by simp only [List.length_cons] at hfuel ⊢; omega)
      simp only [List.map_cons, json.joinComma] at hrec ⊢
      rw [List.append_assoc, json.readMembers_more n k m.1 m.2.1 _ m.2.2 hkey hv (by omega),
        hrec]
      rfl

/-- The object that the map encoder writes for a non-empty list of entries is read as
the map of the values its entries are read as. -/
theorem json.readsAs_object (k : Nat) (ms : List (GoString × GoString × GoAny))
    (hne : ms ≠ [])
    (hall : ∀ t ∈ ms, utf8.ValidString t.1 = true ∧ json.ReadsAs k t.2.1 t.2.2) :
    json.ReadsAs (k + ms.length + 1)
      ([0x7B] ++ json.joinComma (ms.map (fun t => json.appendString t.1 ++ [0x3A] ++ t.2.1))
        ++ [0x7D])
      (.map (ms.map (fun t => (t.1, t.2.2)))) := by
  intro fuel rest hfuel
  obtain ⟨n, rfl⟩ : ∃ n, fuel = n + 1 := ⟨fuel - 1, by omega⟩
  have hm := json.readMembers_joinComma k ms hne hall n rest (by omega)
  have hstart : ∃ x, json.joinComma (ms.map (fun t => json.appendString t.1 ++ [0x3A] ++ t.2.1))
      ++ 0x7D :: rest = 0x22 :: x := by
    cases ms with
    | nil => exact absurd rfl hne
    | cons m t =>
      cases t with
      | nil => exact ⟨_, by simp only [List.map_cons, List.map_nil, json.joinComma,
          json.appendString, List.cons_append, List.nil_append, List.append_assoc]; rfl⟩
      | cons m2 t2 => exact ⟨_, by simp only [List.map_cons, json.joinComma,
          json.appendString, List.cons_append, List.nil_append, List.append_assoc]; rfl⟩
  obtain ⟨x, hx⟩ := hstart
  have hshape : [0x7B] ++ json.joinComma
      (ms.map (fun t => json.appendString t.1 ++ [0x3A] ++ t.2.1)) ++ [0x7D] ++ rest
      = 0x7B :: 0x22 :: x := by
    rw [← hx]
    simp only [List.cons_append, List.nil_append, List.append_assoc]
  rw [hshape, json.readValue_brace, ← hx, hm]
  rfl

/-- More fuel does not change what a text is read as. -/
theorem json.readsAs_mono (k k' : Nat) (text : GoString) (v : GoAny) (h : json.ReadsAs k text v)
    (hk : k ≤ k') : json.ReadsAs k' text v :=
  fun fuel rest hfuel => h fuel rest (Nat.le_trans hk hfuel)

/-- A JSON string literal has at least its two quotes. -/
theorem json.length_appendString (s : GoString) : 2 ≤ (json.appendString s).length := by
  simp only [json.appendString, List.length_append, List.length_singleton]
  omega

/-- The text `json.Marshal` writes for the map of `ExternalAccountCredentialsJson`: the
members in the order of their keys, at each of the three levels. -/
theorem encodeAny_values_shape (p f : GoString) :
    json.encodeAny (auth.ExternalAccountCredentialsJson.values p f)
      = [0x7B] ++ json.joinComma
          ([ (lit "audience", json.appendString p, GoAny.string (json.coerce p)),
             (lit "credential_source",
               [0x7B] ++ json.joinComma
                 ([ (lit "file", json.appendString f, GoAny.string (json.coerce f)),
                    (lit "format",
                      [0x7B] ++ json.joinComma
                        ([ (lit "type", json.appendString (lit "text"),
                            GoAny.string (lit "text")) ].map
                          (fun t => json.appendString t.1 ++ [0x3A] ++ t.2.1)) ++ [0x7D],
                      GoAny.map [(lit "type", .string (lit "text"))]) ].map
                   (fun t => json.appendString t.1 ++ [0x3A] ++ t.2.1)) ++ [0x7D],
               GoAny.map [(lit "file", .string (json.coerce f)),
                 (lit "format", .map [(lit "type", .string (lit "text"))])]),
             (lit "subject_token_type",
               json.appendString (lit "urn:ietf:params:oauth:token-type:jwt"),
               GoAny.string (lit "urn:ietf:params:oauth:token-type:jwt")),
             (lit "token_url", json.appendString (lit "https://sts.googleapis.com/v1/token"),
               GoAny.string (lit "https://sts.googleapis.com/v1/token")),
             (lit "type", json.appendString (lit "external_account"),
               GoAny.string (lit "external_account")),
             (lit "universe_domain", json.appendString (lit "googleapis.com"),
               GoAny.string (lit "googleapis.com")) ].map
            (fun t => json.appendString t.1 ++ [0x3A] ++ t.2.1)) ++ [0x7D] := by
  rfl

/-- The descriptor of any provider and path is read as the six fields, with the provider
and the path coerced to valid UTF-8. -/
theorem ExternalAccountCredentialsJson_readsAs (p f : GoString) :
    json.ReadsAs 13 (json.encodeAny (auth.ExternalAccountCredentialsJson.values p f))
      (.map [
        (lit "audience", .string (json.coerce p)),
        (lit "credential_source", .map [
          (lit "file", .string (json.coerce f)),
          (lit "format", .map [(lit "type", .string (lit "text"))])]),
        (lit "subject_token_type", .string (lit "urn:ietf:params:oauth:token-type:jwt")),
        (lit "token_url", .string (lit "https://sts.googleapis.com/v1/token")),
        (lit "type", .string (lit "external_account")),
        (lit "universe_domain", .string (lit "googleapis.com"))]) := by
  have hformat := json.readsAs_object 1
    [(lit "type", json.appendString (lit "text"), GoAny.string (lit "text"))] (by simp)
    (by
      intro t ht
      simp only [List.mem_singleton] at ht
      subst ht
      exact ⟨by decide, json.readsAs_string _ (by decide)⟩)
  have hsource := json.readsAs_object 3
    [(lit "file", json.appendString f, GoAny.string (json.coerce f)),
      (lit "format",
        [0x7B] ++ json.joinComma
          ([(lit "type", json.appendString (lit "text"), GoAny.string (lit "text"))].map
            (fun t => json.appendString t.1 ++ [0x3A] ++ t.2.1)) ++ [0x7D],
        GoAny.map [(lit "type", .string (lit "text"))])] (by simp)
    (by
      intro t ht
      simp only [List.mem_cons, List.mem_singleton, List.not_mem_nil, or_false] at ht
      rcases ht with rfl | rfl
      · exact ⟨(by decide : utf8.ValidString (lit "file") = true),
          json.readsAs_mono 1 3 _ _ (json.readsAs_string_coerce f) (by omega)⟩
      · exact ⟨(by decide : utf8.ValidString (lit "format") = true), hformat⟩)
  have htop := json.readsAs_object 6
    [(lit "audience", json.appendString p, GoAny.string (json.coerce p)),
      (lit "credential_source",
        [0x7B] ++ json.joinComma
          ([(lit "file", json.appendString f, GoAny.string (json.coerce f)),
            (lit "format",
              [0x7B] ++ json.joinComma
                ([(lit "type", json.appendString (lit "text"),
                    GoAny.string (lit "text"))].map
                  (fun t => json.appendString t.1 ++ [0x3A] ++ t.2.1)) ++ [0x7D],
              GoAny.map [(lit "type", .string (lit "text"))])].map
            (fun t => json.appendString t.1 ++ [0x3A] ++ t.2.1)) ++ [0x7D],
        GoAny.map [(lit "file", .string (json.coerce f)),
          (lit "format", .map [(lit "type", .string (lit "text"))])]),
      (lit "subject_token_type",
        json.appendString (lit "urn:ietf:params:oauth:token-type:jwt"),
        GoAny.string (lit "urn:ietf:params:oauth:token-type:jwt")),
      (lit "token_url", json.appendString (lit "https://sts.googleapis.com/v1/token"),
        GoAny.string (lit "https://sts.googleapis.com/v1/token")),
      (lit "type", json.appendString (lit "external_account"),
        GoAny.string (lit "external_account")),
      (lit "universe_domain", json.appendString (lit "googleapis.com"),
        GoAny.string (lit "googleapis.com"))] (by simp)
    (by
      intro t ht
      simp only [List.mem_cons, List.mem_singleton, List.not_mem_nil, or_false] at ht
      rcases ht with rfl | rfl | rfl | rfl | rfl | rfl
      · exact ⟨(by decide : utf8.ValidString (lit "audience") = true),
          json.readsAs_mono 1 6 _ _ (json.readsAs_string_coerce p) (by omega)⟩
      · exact ⟨(by decide : utf8.ValidString (lit "credential_source") = true), hsource⟩
      · exact ⟨by decide,
          json.readsAs_mono 1 6 _ _ (json.readsAs_string _ (by decide)) (by omega)⟩
      · exact ⟨by decide,
          json.readsAs_mono 1 6 _ _ (json.readsAs_string _ (by decide)) (by omega)⟩
      · exact ⟨by decide,
          json.readsAs_mono 1 6 _ _ (json.readsAs_string _ (by decide)) (by omega)⟩
      · exact ⟨by decide,
          json.readsAs_mono 1 6 _ _ (json.readsAs_string _ (by decide)) (by omega)⟩)
  rw [encodeAny_values_shape]
  exact htop

/-- The descriptor is at least twelve bytes long. -/
theorem length_encodeAny_values (p f : GoString) :
    12 ≤ (json.encodeAny (auth.ExternalAccountCredentialsJson.values p f)).length := by
  rw [encodeAny_values_shape]
  simp only [List.map_cons, List.map_nil, json.joinComma, List.length_append,
    List.length_cons, List.length_nil]
  have h1 := json.length_appendString (lit "audience")
  have h2 := json.length_appendString (lit "credential_source")
  have h3 := json.length_appendString (lit "subject_token_type")
  have h4 := json.length_appendString (lit "token_url")
  have h5 := json.length_appendString (lit "type")
  have h6 := json.length_appendString (lit "universe_domain")
  omega

/-- C7 (amended): for every provider `p` and path `f`, `ExternalAccountCredentialsJson`
returns no error and a text that decodes to a JSON object of exactly six top-level
fields: `audience`, `credential_source = {file, format: {type: "text"}}`,
`subject_token_type = "urn:ietf:params:oauth:token-type:jwt"`, `token_url =
"https://sts.googleapis.com/v1/token"`, `type = "external_account"` and `universe_domain =
"googleapis.com"`, in which `audience` is `p` and `file` is `f`, each with every byte
that is not part of a valid UTF-8 encoding replaced by U+FFFD. When `p` and `f` are valid
UTF-8 they are unchanged, so that `audience = p` and `credential_source.file = f`.
`Gcp.Mount` writes the descriptor of its provider for the path `/.gcp/token`. -/
theorem ExternalAccountCredentialsJson_decodes (p f : GoString) :
    ∃ doc, auth.ExternalAccountCredentialsJson p f = .ok doc
      ∧ json.Unmarshal doc = some (.map [
          (lit "audience", .string (json.coerce p)),
          (lit "credential_source", .map [
            (lit "file", .string (json.coerce f)),
            (lit "format", .map [(lit "type", .string (lit "text"))])]),
          (lit "subject_token_type", .string (lit "urn:ietf:params:oauth:token-type:jwt")),
          (lit "token_url", .string (lit "https://sts.googleapis.com/v1/token")),
          (lit "type", .string (lit "external_account")),
          (lit "universe_domain", .string (lit "googleapis.com"))])
      ∧ (utf8.ValidString p = true → json.coerce p = p)
      ∧ (utf8.ValidString f = true → json.coerce f = f)
      ∧ (utf8.ValidString p = true → utf8.ValidString f = true →
          json.Unmarshal doc = some (.map [
            (lit "audience", .string p),
            (lit "credential_source", .map [
              (lit "file", .string f),
              (lit "format", .map [(lit "type", .string (lit "text"))])]),
            (lit "subject_token_type", .string (lit "urn:ietf:params:oauth:token-type:jwt")),
            (lit "token_url", .string (lit "https://sts.googleapis.com/v1/token")),
            (lit "type", .string (lit "external_account")),
            (lit "universe_domain", .string (lit "googleapis.com"))]))
      ∧ (∀ (token : Secret) (registries : List GoString) (ctr : Container), p ≠ [] →
          ∃ descriptor,
            auth.ExternalAccountCredentialsJson p (lit "/.gcp/token") = .ok descriptor
            ∧ (⟨none, p, some token, registries⟩ : Gcp).Mount ctr
              = (((ctr.WithEnvVariable (lit "GOOGLE_APPLICATION_CREDENTIALS")
                    (lit "/.gcp/credentials")
                  ).WithEnvVariable (lit "CLOUDSDK_AUTH_CREDENTIAL_FILE_OVERRIDE")
                    (lit "/.gcp/credentials")
                  ).WithNewFile (lit "/.gcp/credentials") descriptor
                  ).WithMountedSecret (lit "/.gcp/token") token []) := by
  have hread := ExternalAccountCredentialsJson_readsAs p f
    ((json.encodeAny (auth.ExternalAccountCredentialsJson.values p f)).length + 1) []
    (by have := length_encodeAny_values p f; omega)
  rw [List.append_nil] at hread
  have hdec : json.Unmarshal (json.encodeAny (auth.ExternalAccountCredentialsJson.values p f))
      = some (.map [
          (lit "audience", .string (json.coerce p)),
          (lit "credential_source", .map [
            (lit "file", .string (json.coerce f)),
            (lit "format", .map [(lit "type", .string (lit "text"))])]),
          (lit "subject_token_type", .string (lit "urn:ietf:params:oauth:token-type:jwt")),
          (lit "token_url", .string (lit "https://sts.googleapis.com/v1/token")),
          (lit "type", .string (lit "external_account")),
          (lit "universe_domain", .string (lit "googleapis.com"))]) := by
    simp only [json.Unmarshal, hread]
  refine ⟨json.encodeAny (auth.ExternalAccountCredentialsJson.values p f), rfl, hdec,
    json.coerce_of_valid p, json.coerce_of_valid f, ?_, ?_⟩
  · intro hp hf
    rw [hdec, json.coerce_of_valid p hp, json.coerce_of_valid f hf]
  · intro token registries ctr hne
    refine ⟨json.encodeAny (auth.ExternalAccountCredentialsJson.values p (lit "/.gcp/token")),
      rfl, ?_⟩
    simp [Gcp.Mount, hne, auth.ExternalAccountCredentialsJson, json.MarshalAny]

/-- C7 (amended), at concrete inputs: an ASCII provider name with the path of `Gcp.Mount`
decodes to the provider and the path themselves; the provider `\x80` still gives a text
that decodes to the six fields, with U+FFFD as `audience`. -/
theorem ExternalAccountCredentialsJson_decodes_witness :
    (∃ doc, auth.ExternalAccountCredentialsJson
          (lit "//iam.googleapis.com/projects/123/providers/p") (lit "/.gcp/token") = .ok doc
      ∧ json.Unmarshal doc = some (.map [
          (lit "audience", .string (lit "//iam.googleapis.com/projects/123/providers/p")),
          (lit "credential_source", .map [
            (lit "file", .string (lit "/.gcp/token")),
            (lit "format", .map [(lit "type", .string (lit "text"))])]),
          (lit "subject_token_type", .string (lit "urn:ietf:params:oauth:token-type:jwt")),
          (lit "token_url", .string (lit "https://sts.googleapis.com/v1/token")),
          (lit "type", .string (lit "external_account")),
          (lit "universe_domain", .string (lit "googleapis.com"))]))
    ∧ (∃ doc, auth.ExternalAccountCredentialsJson [0x80] (lit "/.gcp/token") = .ok doc
      ∧ json.Unmarshal doc = some (.map [
          (lit "audience", .string [0xEF, 0xBF, 0xBD]),
          (lit "credential_source", .map [
            (lit "file", .string (lit "/.gcp/token")),
            (lit "format", .map [(lit "type", .string (lit "text"))])]),
          (lit "subject_token_type", .string (lit "urn:ietf:params:oauth:token-type:jwt")),
          (lit "token_url", .string (lit "https://sts.googleapis.com/v1/token")),
          (lit "type", .string (lit "external_account")),
          (lit "universe_domain", .string (lit "googleapis.com"))])) := by
  constructor
  · obtain ⟨doc, h1, _, _, _, h5, _⟩ := ExternalAccountCredentialsJson_decodes
      (lit "//iam.googleapis.com/projects/123/providers/p") (lit "/.gcp/token")
    exact ⟨doc, h1, h5 (by decide) (by decide)⟩
  · obtain ⟨doc, h1, h2, _, h4, _, _⟩ := ExternalAccountCredentialsJson_decodes
      [0x80] (lit "/.gcp/token")
    have hc : json.coerce [0x80] = [0xEF, 0xBF, 0xBD] := by decide
    rw [hc, h4 (by decide)] at h2
    exact ⟨doc, h1, h2⟩

/-- C7, as stated, fails for a provider that is not valid UTF-8: for the one-byte
provider `\xff` the call returns no error, but the `audience` of the returned text
decodes to U+FFFD (the bytes `EF BF BD`), not to the provider; the provider `\xfe`
gives the very same text. -/
theorem ExternalAccountCredentialsJson_invalid_utf8_audience :
    ∃ doc, auth.ExternalAccountCredentialsJson [0xFF] (lit "/.gcp/token") = .ok doc
      ∧ ((json.Unmarshal doc).bind (GoAny.field (lit "audience"))).bind GoAny.asString
          = some [0xEF, 0xBF, 0xBD]
      ∧ auth.ExternalAccountCredentialsJson [0xFE] (lit "/.gcp/token") = .ok doc :=
  ⟨_, rfl, by decide, by decide⟩

end DaggerGcp
